import Mathlib

/-!
# Overload sets of the binding generator (`wrap/OverloadedFunction.h`)

A shallow embedding of `ArgumentOverloads` and `OverloadedFunction`.

* `std::vector` is `List`, `size_t` is `Nat` (the only arithmetic on sizes is
  `size() - 1` under the guard `size() > 0`, which cannot wrap).
* A member function that can throw returns `Except WrapError _`.
* The header consumes `Argument`, `ArgumentList`, `TemplateSubstitution`,
  `Qualified` and `Function` from other files.  The operations of those types
  that the header calls (`qualifiedName`, `expandTemplate`, `pyx_paramsList`,
  `pyx_castParamsToPythonType`, `initializeOrCheck`) are taken as parameters
  of the embedded functions.
* The two function templates at the end of the header work on a
  `std::map<std::string, F>`, held as its entries in ascending key order; the
  members `F::expandTemplate` and `F::verifyArguments` they call are
  parameters too.
-/

namespace wrap

/-! ## Data model -/

/-- Modelled from the spec: the `Argument` of `Argument.h`, which this header
only consumes: a named, typed parameter `{name, type}`.  The qualified-type
descriptor is the type parameter `Q`. -/
structure Argument (Q : Type) where
  name : String
  type : Q
deriving DecidableEq, Repr

/-- Modelled from the spec: the `ArgumentList` of `Argument.h`, an ordered
sequence of `Argument` forming one signature (a `std::vector<Argument>`). -/
abbrev ArgumentList (Q : Type) := List (Argument Q)

/-- Modelled from the spec: the `TemplateSubstitution` of
`TemplateSubstitution.h`, which this header only consumes: a rule mapping one
formal placeholder type to one concrete type. -/
structure TemplateSubstitution (Q : Type) where
  placeholder : Q
  concrete : Q
deriving DecidableEq, Repr

/-- Modelled from the spec: `ArgumentList::expandTemplate` of `Argument.h`,
which this header only calls: every argument's type has had `ts` applied;
names and arity are untouched. -/
def ArgumentList.expandTemplate {Q : Type} [DecidableEq Q]
    (ts : TemplateSubstitution Q) (argList : ArgumentList Q) : ArgumentList Q :=
  argList.map fun arg =>
    { arg with type := if arg.type = ts.placeholder then ts.concrete else arg.type }

/-- The exceptions that leave the functions of this header.
`DependencyMissing` is constructed at line 62 with the offending type and a
location text; `IndexOutOfRange` is the `std::out_of_range` of
`std::vector::at` (line 36); `IdentityConflict` is the failure of
`initializeOrCheck` (line 131). -/
inductive WrapError where
  | DependencyMissing (dependency : String) (location : String)
  | IdentityConflict
  | IndexOutOfRange
deriving DecidableEq, Repr

/-- The class `ArgumentOverloads` (lines 29-124): its only data member is
`argLists_`. -/
structure ArgumentOverloads (Q : Type) where
  argLists_ : List (ArgumentList Q)
deriving DecidableEq, Repr

namespace ArgumentOverloads

variable {Q TS : Type}

/-- Line 34: `nrOverloads() { return argLists_.size(); }`. -/
def nrOverloads (self : ArgumentOverloads Q) : Nat :=
  self.argLists_.length

/-- Line 36: `argumentList(i) { return argLists_.at(i); }`; `at` throws when
`i` is not below the size. -/
def argumentList (self : ArgumentOverloads Q) (i : Nat) :
    Except WrapError (ArgumentList Q) :=
  match self.argLists_[i]? with
  | some argList => .ok argList
  | none => .error .IndexOutOfRange

/-- Line 38: `push_back(args) { argLists_.push_back(args); }`. -/
def push_back (self : ArgumentOverloads Q) (args : ArgumentList Q) :
    ArgumentOverloads Q :=
  { argLists_ := self.argLists_ ++ [args] }

/-- Lines 40-48: the loop pushes `argList.expandTemplate(ts)` onto `result`
for every held `argList`, in order.  `expandTemplate` is
`ArgumentList::expandTemplate` of `Argument.h`. -/
def expandArgumentListsTemplate (expandTemplate : TS → ArgumentList Q → ArgumentList Q)
    (self : ArgumentOverloads Q) (ts : TS) : List (ArgumentList Q) :=
  self.argLists_.foldl
    (fun result argList =>
      let instArgList := expandTemplate ts argList
      result ++ [instArgList])
    []

/-- Lines 51-53: `argLists_ = expandArgumentListsTemplate(ts);`. -/
def ExpandTemplate (expandTemplate : TS → ArgumentList Q → ArgumentList Q)
    (self : ArgumentOverloads Q) (ts : TS) : ArgumentOverloads Q :=
  { argLists_ := self.expandArgumentListsTemplate expandTemplate ts }

/-- Lines 58-63, the body of the inner loop for one argument: compute the
qualified name with delimiter `"::"` and throw when `find` reaches
`validArgs.end()`. -/
def verifyArgument (qualifiedName : Q → String → String)
    (validArgs : List String) (s : String) (arg : Argument Q) :
    Except WrapError Unit :=
  let fullType := qualifiedName arg.type "::"
  if validArgs.find? (fun v => v == fullType) = none then
    .error (.DependencyMissing fullType ("checking argument of " ++ s))
  else
    .ok ()

/-- Lines 55-65: the two nested loops over the signatures and over the
arguments of each signature. -/
def verifyArguments (qualifiedName : Q → String → String)
    (self : ArgumentOverloads Q) (validArgs : List String) (s : String) :
    Except WrapError Unit :=
  self.argLists_.forM fun argList =>
    argList.forM fun arg => verifyArgument qualifiedName validArgs s arg

/-- Lines 75-76 and 98-99: `indent` is built by appending one tab
`indentLevel` times. -/
def indentOf (indentLevel : Nat) : String :=
  (List.range indentLevel).foldl (fun indent _ => indent ++ "\t") ""

/-- Lines 74-93.  The member function does not read `this`, so the embedding
has no `self`.  `pyx_paramsList` and `pyx_castParamsToPythonType` are the
member functions of `ArgumentList` called on lines 83 and 87. -/
def pyx_resolveOverloadParams (pyx_paramsList : ArgumentList Q → String)
    (pyx_castParamsToPythonType : ArgumentList Q → String)
    (args : ArgumentList Q) (isVoid : Bool) (indentLevel : Nat := 2) : String :=
  let indent := indentOf indentLevel
  let s := ""
  let s := s ++ (indent ++ "if len(args)+len(kwargs) !=" ++ toString args.length ++ ":\n")
  let s := s ++ (indent ++ "\treturn False")
  let s := s ++ (if !isVoid then ", None\n" else "\n")
  if args.length > 0 then
    let s := s ++ (indent ++ "__params = kwargs.copy()\n")
    let s := s ++ (indent ++ "__names = [" ++ pyx_paramsList args ++ "]\n")
    let s := s ++ (indent ++ "for i in range(len(args)):\n")
    let s := s ++ (indent ++ "\t__params[__names[i]] = args[i]\n")
    let s := s ++ (indent ++ "try:\n")
    let s := s ++ pyx_castParamsToPythonType args
    let s := s ++ (indent ++ "except:\n")
    let s := s ++ (indent ++ "\treturn False")
    let s := s ++ (if !isVoid then ", None\n" else "\n")
    s
  else
    s

/-- The two local containers of lines 100-101: `nargsSet` (an
`unordered_set`, of which only `find` and `insert` are used) and
`nargsDuplicates`. -/
structure NargsScan where
  nargsSet : List Nat
  nargsDuplicates : List Nat
deriving DecidableEq, Repr

/-- Lines 104-107: record `nargs` as a duplicate when `nargsSet.find` succeeds,
insert it into `nargsSet` otherwise. -/
def nargsUpdate (st : NargsScan) (nargs : Nat) : NargsScan :=
  if st.nargsSet.contains nargs then
    { st with nargsDuplicates := st.nargsDuplicates ++ [nargs] }
  else
    { st with nargsSet := nargs :: st.nargsSet }

/-- Lines 103-107, the loop body at index `i`: `argumentList(i)` may throw. -/
def nargsStep (self : ArgumentOverloads Q) (st : NargsScan) (i : Nat) :
    Except WrapError NargsScan :=
  match self.argumentList i with
  | .error e => .error e
  | .ok argList =>
    let nargs := argList.length
    .ok (nargsUpdate st nargs)

/-- Lines 100-108: the loop `for (i = 0; i < nrOverloads(); ++i)`, returning
the final `nargsDuplicates`. -/
def nargsDuplicates (self : ArgumentOverloads Q) : Except WrapError (List Nat) :=
  match (List.range self.nrOverloads).foldlM (nargsStep self) ⟨[], []⟩ with
  | .error e => .error e
  | .ok st => .ok st.nargsDuplicates

/-- Lines 114-115, the loop body at index `i`: append the decimal of
`nargsDuplicates[i]`, then a comma unless `i` is the last index.  The
unchecked `operator[]` is only reached with `i` below the size. -/
def renderStep (nargsDuplicates : List Nat) (s : String) (i : Nat) : String :=
  let s := s ++ toString (nargsDuplicates.getD i 0)
  if i < nargsDuplicates.length - 1 then s ++ "," else s

/-- Lines 110-122: the text built from `nargsDuplicates`. -/
def duplicateNargsText (indent : String) (nargsDuplicates : List Nat) : String :=
  let s := ""
  if nargsDuplicates.length > 0 then
    let s := s ++ (indent ++ "if len(kwargs)==0 and len(args)+len(kwargs) in [")
    let s := (List.range nargsDuplicates.length).foldl (renderStep nargsDuplicates) s
    let s := s ++ "]:\n"
    let s := s ++ (indent ++ ("\traise TypeError('Overloads with the same number of "
      ++ "arguments exist. Please use keyword arguments to "
      ++ "differentiate them!')\n"))
    s
  else
    s

/-- Lines 97-123. -/
def pyx_checkDuplicateNargsKwArgs (self : ArgumentOverloads Q)
    (indentLevel : Nat := 2) : Except WrapError String :=
  let indent := indentOf indentLevel
  match self.nargsDuplicates with
  | .error e => .error e
  | .ok nargsDuplicates => .ok (duplicateNargsText indent nargsDuplicates)

/-- Meaning, for a call with `nArgs` positional and `nKwargs` keyword
arguments, of the condition emitted on line 112 and closed on line 117:
`len(kwargs)==0 and len(args)+len(kwargs) in [d1,...,dk]`. -/
def duplicateNargsGuardFires (nargsDuplicates : List Nat) (nArgs nKwargs : Nat) : Bool :=
  nKwargs == 0 && nargsDuplicates.contains (nArgs + nKwargs)

/-! ## Auxiliary definitions used in the statements and proofs -/

/-- Invariant of the scan after the arities `p` have been processed. -/
def ScanInv (st : NargsScan) (p : List Nat) : Prop :=
  ∀ n, (n ∈ st.nargsSet ↔ n ∈ p) ∧
    st.nargsDuplicates.count n + (if n ∈ p then 1 else 0) = p.count n

/-- Signature with the given parameter names, all of one type. -/
def exampleArgs (names : List String) (type : String) : ArgumentList String :=
  names.map fun n => { name := n, type := type }

/-- Overloads `f(int)`, `f(int,int)`, `f(double)`. -/
def overloads121 : ArgumentOverloads String :=
  { argLists_ := [exampleArgs ["a"] "int", exampleArgs ["a", "b"] "int", exampleArgs ["x"] "double"] }

/-- Four overloads with arities 2, 3, 3, 4. -/
def overloads2334 : ArgumentOverloads String :=
  { argLists_ := [exampleArgs ["a", "b"] "int", exampleArgs ["a", "b", "c"] "int",
      exampleArgs ["x", "y", "z"] "double", exampleArgs ["a", "b", "c", "d"] "int"] }

/-- The overload set holding the single signature `f(T x)`. -/
def overloadsT : ArgumentOverloads String :=
  { argLists_ := [[{ name := "x", type := "T" }]] }

/-- The substitution of placeholder `T` by `Point2`. -/
def substTPoint2 : TemplateSubstitution String :=
  { placeholder := "T", concrete := "Point2" }

/-- The substitution of placeholder `Point2` by `Point3`. -/
def substPoint2Point3 : TemplateSubstitution String :=
  { placeholder := "Point2", concrete := "Point3" }

/-- Overloads `f(int a)`, `f(int a, Pose2 p)`, `f(double x)`. -/
def overloadsPose : ArgumentOverloads String :=
  { argLists_ := [[{ name := "a", type := "int" }],
      [{ name := "a", type := "int" }, { name := "p", type := "Pose2" }],
      [{ name := "x", type := "double" }]] }

/-- A `qualifiedName` for type descriptors that are already the qualified
text: the delimiter is not used. -/
def plainName (type : String) (_delimiter : String) : String := type

end ArgumentOverloads

/-! ## `OverloadedFunction` (lines 126-137) -/

/-- Modelled from the spec: the state of the base class `Function` of
`Function.h`, which is not part of this header: "a name, an optional
template-instantiation identity"; `none` until the first declaration has
established the identity. -/
structure Function (Q : Type) where
  identity_ : Option (String × Option Q)
deriving DecidableEq, Repr

/-- Modelled from the spec: `Function::initializeOrCheck` of `Function.h`,
which this header only calls: "on the first invocation for a given (name,
instantiationIdentity) pair, records that identity and returns a first
declaration flag of true; on every subsequent invocation, compares the
supplied identity against the stored one - mismatch fails with an
IdentityConflict kind - and returns false".  The result pairs the outcome with
the state of the object after the call, so that a failing call has a
post-state too. -/
def Function.initializeOrCheck {Q : Type} [DecidableEq Q] (self : Function Q)
    (name : String) (instName : Option Q) (_verbose : Bool) :
    Except WrapError Bool × Function Q :=
  match self.identity_ with
  | none => (.ok true, { identity_ := some (name, instName) })
  | some stored =>
    if stored = (name, instName) then (.ok false, self)
    else (.error .IdentityConflict, self)

/-- The class `OverloadedFunction : public Function, public ArgumentOverloads`
(line 126).  `F` is the state of the base class `Function`. -/
structure OverloadedFunction (Q F : Type) where
  toFunction : F
  toArgumentOverloads : ArgumentOverloads Q
deriving DecidableEq, Repr

/-- Lines 128-134.  `initializeOrCheck` is the member function of the base
class `Function`; when it throws, line 132 is not reached and the exception
leaves `addOverload`.  The result pairs the outcome (the returned `first`, or
the exception) with the object after the call. -/
def OverloadedFunction.addOverload {Q F : Type}
    (initializeOrCheck : F → String → Option Q → Bool → Except WrapError Bool × F)
    (self : OverloadedFunction Q F) (name : String) (args : ArgumentList Q)
    (instName : Option Q := none) (verbose : Bool := false) :
    Except WrapError Bool × OverloadedFunction Q F :=
  match initializeOrCheck self.toFunction name instName verbose with
  | (.error e, fn) => (.error e, { self with toFunction := fn })
  | (.ok first, fn) =>
    (.ok first,
      { toFunction := fn, toArgumentOverloads := self.toArgumentOverloads.push_back args })

/-- A freshly created `OverloadedFunction`: no identity, no signature. -/
def OverloadedFunction.fresh (Q : Type) : OverloadedFunction Q (Function Q) :=
  { toFunction := { identity_ := none }, toArgumentOverloads := { argLists_ := [] } }

/-! ## Meaning of the emitted binding lines -/

/-- Meaning of the statement emitted on line 85,
`__params[__names[i]] = args[i]`, for one value of `i`: the entry of
`__params` at key `__names[i]` is set to the positional value `args[i]`.
`none` stands for the index error of an `i` outside `__names` or `args`. -/
def pyBindPositional {V : Type} (names : List String) (args : List V)
    (params : String → Option V) (i : Nat) : Option (String → Option V) :=
  match names[i]?, args[i]? with
  | some name, some value => some (fun key => if key = name then some value else params key)
  | _, _ => none

/-- Meaning of the statements emitted on lines 82-85, in the order in which
they are emitted: `__params = kwargs.copy()`, `__names = [...]`, and the loop
`for i in range(len(args)): __params[__names[i]] = args[i]`.  A dictionary is
its lookup function; `names` is the content of `__names`. -/
def pyBindParams {V : Type} (names : List String) (args : List V)
    (kwargs : List (String × V)) : Option (String → Option V) :=
  let params : String → Option V := fun key => kwargs.lookup key
  (List.range args.length).foldlM (pyBindPositional names args) params

/-- Meaning of the condition emitted on line 78,
`len(args)+len(kwargs) != <arity>`, under which the fragment returns
no-match. -/
def pyArityMismatch (arity nArgs nKwargs : Nat) : Bool :=
  nArgs + nKwargs != arity

/-- The signature `f(int a, int b)`. -/
def signatureAB : ArgumentList String :=
  [{ name := "a", type := "int" }, { name := "b", type := "int" }]

/-- A parameter-name listing for the examples: the quoted names, separated by
`, `. -/
def quotedNames (args : ArgumentList String) : String :=
  ", ".intercalate (args.map fun arg => "\x27" ++ arg.name ++ "\x27")

/-- A type-check text for the examples: one line for all parameters. -/
def checkAll (_args : ArgumentList String) : String :=
  "\t\t\tcheck(__params)\n"

/-- The overload set after the signatures of `pushed` have been passed to
`push_back`, one call each, on an empty set. -/
def pushAll {Q : Type} (pushed : List (ArgumentList Q)) : ArgumentOverloads Q :=
  pushed.foldl ArgumentOverloads.push_back { argLists_ := [] }

/-- The arities that repeat an earlier one: the arity at index `i` of
`arities` is listed, in the order of `i`, when it occurs among the arities at
the indices below `i`. -/
def repeatedArities (arities : List Nat) : List Nat :=
  ((List.range arities.length).filter fun i =>
    (arities.take i).contains (arities.getD i 0)).map fun i => arities.getD i 0

/-- Three overloads of arity 3. -/
def overloads333 : ArgumentOverloads String :=
  { argLists_ := [ArgumentOverloads.exampleArgs ["a", "b", "c"] "int",
      ArgumentOverloads.exampleArgs ["x", "y", "z"] "double",
      ArgumentOverloads.exampleArgs ["p", "q", "r"] "Pose2"] }

/-! ## The templated helpers over `std::map<std::string, F>` (lines 142-162) -/

/-- A `std::map<std::string, F>` as the sequence of its entries in iteration
order, which is ascending key order. -/
abbrev StdMap (F : Type) := List (String × F)

/-- The keys of a `std::map` are strictly ascending in iteration order, so
they are pairwise distinct. -/
def StdMap.WellFormed {F : Type} (m : StdMap F) : Prop :=
  m.Pairwise fun a b => a.1 < b.1

/-- `std::map::insert(value)`: the entry is placed before the first entry
with a greater key; when an entry with an equal key is present the map is
left as it is. -/
def StdMap.insert {F : Type} (entry : String × F) : StdMap F → StdMap F
  | [] => [entry]
  | e :: rest =>
    if entry.1 < e.1 then entry :: e :: rest
    else if entry.1 = e.1 then e :: rest
    else e :: StdMap.insert entry rest

/-- `std::map::find` as a lookup of the value at a key. -/
def StdMap.find {F : Type} (m : StdMap F) (key : String) : Option F :=
  (List.find? (fun e => e.1 == key) m).map Prod.snd

/-- Lines 142-154.  Each entry is copied, `instMethod.expandTemplate(ts)` is
called on the copy of its value, and the entry with the updated value is
inserted into `result`.  `expandTemplate` is the member function of `F`: it
gives the state of `instMethod` after the call. -/
def expandMethodTemplate {F TS : Type} (expandTemplate : F → TS → F)
    (methods : StdMap F) (ts : TS) : StdMap F :=
  methods.foldl
    (fun result namedMethod =>
      let instMethod := namedMethod.2
      let instMethod := expandTemplate instMethod ts
      let namedMethod := (namedMethod.1, instMethod)
      StdMap.insert namedMethod result)
    []

/-- Lines 156-162.  `verifyArgumentsOf` is the member function
`F::verifyArguments(validArgs)` called on every value, in iteration order; an
exception thrown by it leaves the loop. -/
def verifyArguments {F : Type} (verifyArgumentsOf : F → List String → Except WrapError Unit)
    (validArgs : List String) (vt : StdMap F) : Except WrapError Unit :=
  vt.forM fun namedMethod => verifyArgumentsOf namedMethod.2 validArgs

/-- A method table with the keys `print` and `vector`. -/
def methodTable : StdMap (ArgumentOverloads String) :=
  [("print", ArgumentOverloads.overloadsT), ("vector", ArgumentOverloads.overloadsPose)]

/-- A `verifyArguments` of a value type for the examples: the one of
`ArgumentOverloads` with the qualified text as type name and context `m`. -/
def verifyOverloads (overloads : ArgumentOverloads String) (validArgs : List String) :
    Except WrapError Unit :=
  overloads.verifyArguments ArgumentOverloads.plainName validArgs "m"

/-! # Theorems -/

namespace ArgumentOverloads

variable {Q TS : Type}

/-! ## Lemmas on the duplicate-arity scan -/

theorem argumentList_of_lt (self : ArgumentOverloads Q) (i : Nat)
    (h : i < self.argLists_.length) :
    self.argumentList i = .ok (self.argLists_[i]) := by
  simp [argumentList, List.getElem?_eq_getElem h]

theorem argumentList_of_ge (self : ArgumentOverloads Q) (i : Nat)
    (h : self.argLists_.length ≤ i) :
    self.argumentList i = .error .IndexOutOfRange := by
  simp [argumentList, List.getElem?_eq_none h]

/-- The index loop never leaves the vector: it computes the fold of
`nargsUpdate` over the arities of the first `n` signatures. -/
theorem foldlM_nargsStep (self : ArgumentOverloads Q) (st : NargsScan) :
    ∀ n, n ≤ self.argLists_.length →
      (List.range n).foldlM (nargsStep self) st
        = .ok (((self.argLists_.take n).map List.length).foldl nargsUpdate st) := by
  intro n
  induction n with
  | zero => intro _; rfl
  | succ k ih =>
    intro hk
    have hlt : k < self.argLists_.length := hk
    rw [List.range_succ, List.foldlM_append, ih (Nat.le_of_lt hlt)]
    have htake : List.take (k + 1) self.argLists_
        = List.take k self.argLists_ ++ [self.argLists_[k]] := by
      rw [List.take_succ, List.getElem?_eq_getElem hlt]; rfl
    rw [htake, List.map_append, List.foldl_append]
    show (List.foldlM (nargsStep self) _ [k]) = _
    rw [List.foldlM_cons]
    unfold nargsStep
    rw [argumentList_of_lt self k hlt]
    rfl

theorem nargsDuplicates_eq (self : ArgumentOverloads Q) :
    self.nargsDuplicates
      = .ok ((self.argLists_.map List.length).foldl nargsUpdate ⟨[], []⟩).nargsDuplicates := by
  unfold nargsDuplicates nrOverloads
  rw [foldlM_nargsStep self _ _ (Nat.le_refl _), List.take_length]

theorem scanInv_nil : ScanInv ⟨[], []⟩ [] := by
  intro n; simp

theorem scanInv_step (st : NargsScan) (p : List Nat) (a : Nat) (h : ScanInv st p) :
    ScanInv (nargsUpdate st a) (p ++ [a]) := by
  intro n
  obtain ⟨hset, hcnt⟩ := h n
  obtain ⟨hseta, _⟩ := h a
  unfold nargsUpdate
  by_cases ha : a ∈ st.nargsSet
  · have hap : a ∈ p := hseta.mp ha
    simp only [List.elem_eq_mem, decide_eq_true_eq, ha, if_true]
    refine ⟨?_, ?_⟩
    · simp only [hset, List.mem_append, List.mem_singleton]
      constructor
      · intro h1; exact Or.inl h1
      · rintro (h1 | h1)
        · exact h1
        · exact h1 ▸ hap
    · by_cases hna : n = a
      · subst hna
        simp [List.count_append, hap] at hcnt ⊢
        omega
      · have : ¬ a = n := fun e => hna e.symm
        by_cases hnp : n ∈ p <;> simp [List.count_append, hna, this, hnp] at hcnt ⊢ <;> omega
  · have hap : a ∉ p := fun h1 => ha (hseta.mpr h1)
    simp only [List.elem_eq_mem, decide_eq_true_eq, ha, if_false]
    refine ⟨?_, ?_⟩
    · simp only [List.mem_cons, hset, List.mem_append, List.mem_singleton]
      tauto
    · by_cases hna : n = a
      · subst hna
        simp [List.count_append, hap] at hcnt ⊢
        omega
      · have : ¬ a = n := fun e => hna e.symm
        by_cases hnp : n ∈ p <;> simp [List.count_append, hna, this, hnp] at hcnt ⊢ <;> omega

theorem scanInv_foldl (rest : List Nat) :
    ∀ (st : NargsScan) (p : List Nat), ScanInv st p →
      ScanInv (rest.foldl nargsUpdate st) (p ++ rest) := by
  induction rest with
  | nil => intro st p h; simpa using h
  | cons a rest ih =>
    intro st p h
    have := ih (nargsUpdate st a) (p ++ [a]) (scanInv_step st p a h)
    simpa [List.append_assoc] using this

theorem scanInv_all (p : List Nat) :
    ScanInv (p.foldl nargsUpdate ⟨[], []⟩) p := by
  simpa using scanInv_foldl p ⟨[], []⟩ [] scanInv_nil


/-! ## Lemmas on the emitted text -/

theorem intercalate_go_snoc (sep x : String) (l : List String) :
    ∀ acc, String.intercalate.go acc sep (l ++ [x])
      = String.intercalate.go acc sep l ++ sep ++ x := by
  induction l with
  | nil => intro acc; rfl
  | cons a l ih => intro acc; simp [String.intercalate.go, ih]

theorem intercalate_snoc (sep x : String) (l : List String) :
    sep.intercalate (l ++ [x])
      = if l = [] then x else sep.intercalate l ++ sep ++ x := by
  cases l with
  | nil => rfl
  | cons a l => simp [String.intercalate, intercalate_go_snoc]

/-- The comma loop of lines 113-116 after `n` rounds. -/
theorem foldl_renderStep (d : List Nat) (s : String) :
    ∀ n, n ≤ d.length →
      (List.range n).foldl (renderStep d) s
        = s ++ ",".intercalate ((d.take n).map toString)
            ++ (if 0 < n ∧ n < d.length then "," else "") := by
  intro n
  induction n with
  | zero => intro _; simp [String.intercalate]
  | succ k ih =>
    intro hk
    have hlt : k < d.length := hk
    have htake : d.take (k + 1) = d.take k ++ [d[k]] := by
      rw [List.take_succ, List.getElem?_eq_getElem hlt]; rfl
    have hget : d.getD k 0 = d[k] := by
      simp [List.getD, List.getElem?_eq_getElem hlt]
    rw [List.range_succ, List.foldl_append, ih (Nat.le_of_lt hlt), htake,
      List.map_append, List.map_singleton, intercalate_snoc]
    simp only [List.foldl_cons, List.foldl_nil, renderStep, hget]
    have hlast : (k < d.length - 1) ↔ (k + 1 < d.length) := by omega
    by_cases hk0 : k = 0
    · subst hk0
      by_cases h1 : 1 < d.length
      · have h2 : 0 < d.length - 1 := by omega
        simp [h1, h2, String.intercalate, String.append_assoc]
      · have h2 : ¬ 0 < d.length - 1 := by omega
        simp [h1, h2, String.intercalate, String.append_assoc]
    · have hkpos : 0 < k := Nat.pos_of_ne_zero hk0
      have hdne : ¬ d = [] := by
        intro h; subst h; simp at hlt
      have hne : ¬ (k = 0 ∨ d = []) := by
        intro h; cases h with
        | inl h => exact hk0 h
        | inr h => exact hdne h
      by_cases h1 : k + 1 < d.length
      · have h2 : k < d.length - 1 := by omega
        simp [h1, h2, hne, hkpos, hlt, String.append_assoc]
      · have h2 : ¬ k < d.length - 1 := by omega
        simp [h1, h2, hne, hkpos, hlt, String.append_assoc]

/-- The text of lines 110-122 in closed form. -/
theorem duplicateNargsText_eq (indent : String) (d : List Nat) :
    duplicateNargsText indent d
      = if d = [] then ""
        else indent ++ "if len(kwargs)==0 and len(args)+len(kwargs) in ["
          ++ ",".intercalate (d.map toString) ++ "]:\n"
          ++ indent ++ "\traise TypeError('Overloads with the same number of arguments exist. Please use keyword arguments to differentiate them!')\n" := by
  unfold duplicateNargsText
  by_cases hd : d = []
  · subst hd; simp
  · have hpos : 0 < d.length := List.length_pos.mpr hd
    have hlit : ("\traise TypeError('Overloads with the same number of "
        ++ "arguments exist. Please use keyword arguments to "
        ++ "differentiate them!')\n" : String)
        = "\traise TypeError('Overloads with the same number of arguments exist. Please use keyword arguments to differentiate them!')\n" := by
      decide
    simp only [gt_iff_lt, hpos, if_true, hd, if_false, hlit]
    rw [foldl_renderStep d _ d.length (Nat.le_refl _), List.take_length]
    simp [String.append_assoc]

theorem indentOf_eq (k : Nat) : indentOf k = String.mk (List.replicate k '\t') := by
  unfold indentOf
  induction k with
  | zero => rfl
  | succ k ih =>
    rw [List.range_succ, List.foldl_append, ih]
    apply String.ext
    simp [List.replicate_succ']

theorem indentOf_succ (k : Nat) : indentOf (k + 1) = indentOf k ++ "\t" := by
  unfold indentOf
  rw [List.range_succ, List.foldl_append]
  rfl


theorem count_length_eq_countP (argLists : List (ArgumentList Q)) (n : Nat) :
    (argLists.map List.length).count n = argLists.countP (fun l => l.length == n) := by
  induction argLists with
  | nil => rfl
  | cons a l ih =>
    simp only [List.map_cons, List.count_cons, List.countP_cons, ih]

theorem mem_nargsDuplicates_iff (p : List Nat) (n : Nat) :
    n ∈ (p.foldl nargsUpdate ⟨[], []⟩).nargsDuplicates ↔ 2 ≤ p.count n := by
  obtain ⟨_, hcnt⟩ := scanInv_all p n
  rw [← List.count_pos_iff]
  by_cases hn : n ∈ p
  · simp only [hn, if_true] at hcnt; omega
  · have h0 : p.count n = 0 := List.count_eq_zero.mpr hn
    simp only [hn, if_false] at hcnt; omega

/-- C1: the arity list written into the guard of
`pyx_checkDuplicateNargsKwArgs` contains `n` exactly when at least two held
signatures have `n` arguments, so the emitted condition
`len(kwargs)==0 and len(args)+len(kwargs) in [...]` holds for a call exactly
when the call has no keyword argument and its total argument count is an arity
shared by two or more signatures; arities 2,3,3,4 give the list `[3]` and
arities 1,2,1 give the list `[1]`. -/
theorem duplicateNargs_guard_iff_shared_arity (self : ArgumentOverloads Q)
    (indentLevel : Nat) :
    ∃ dups : List Nat,
      self.nargsDuplicates = .ok dups ∧
      self.pyx_checkDuplicateNargsKwArgs indentLevel
        = .ok (if dups = [] then ""
            else String.mk (List.replicate indentLevel '\t')
              ++ "if len(kwargs)==0 and len(args)+len(kwargs) in ["
              ++ ",".intercalate (dups.map toString) ++ "]:\n"
              ++ String.mk (List.replicate indentLevel '\t')
              ++ "\traise TypeError('Overloads with the same number of arguments exist. Please use keyword arguments to differentiate them!')\n") ∧
      (∀ n, n ∈ dups ↔ 2 ≤ self.argLists_.countP (fun l => l.length == n)) ∧
      (∀ nArgs nKwargs, duplicateNargsGuardFires dups nArgs nKwargs = true ↔
        nKwargs = 0 ∧
          2 ≤ self.argLists_.countP (fun l => l.length == nArgs + nKwargs)) ∧
      (self.argLists_.map List.length = [2, 3, 3, 4] → dups = [3]) ∧
      (self.argLists_.map List.length = [1, 2, 1] → dups = [1]) := by
  have hmem : ∀ n, n ∈ ((self.argLists_.map List.length).foldl nargsUpdate
      ⟨[], []⟩).nargsDuplicates ↔ 2 ≤ self.argLists_.countP (fun l => l.length == n) := by
    intro n
    rw [mem_nargsDuplicates_iff, count_length_eq_countP]
  refine ⟨_, nargsDuplicates_eq self, ?_, hmem, ?_, ?_, ?_⟩
  · unfold pyx_checkDuplicateNargsKwArgs
    rw [nargsDuplicates_eq self]
    simp only [duplicateNargsText_eq, indentOf_eq]
  · intro nArgs nKwargs
    unfold duplicateNargsGuardFires
    simp only [Bool.and_eq_true, beq_iff_eq, List.elem_eq_mem, decide_eq_true_eq, hmem]
  · intro h; rw [h]; rfl
  · intro h; rw [h]; rfl

theorem duplicateNargs_guard_examples :
    (∃ dups, overloads2334.nargsDuplicates = .ok dups ∧ dups = [3] ∧
      duplicateNargsGuardFires dups 3 0 = true ∧
      duplicateNargsGuardFires dups 2 0 = false ∧
      duplicateNargsGuardFires dups 4 0 = false ∧
      duplicateNargsGuardFires dups 2 1 = false) ∧
    (∃ dups, overloads121.nargsDuplicates = .ok dups ∧ dups = [1] ∧
      duplicateNargsGuardFires dups 1 0 = true ∧
      duplicateNargsGuardFires dups 2 0 = false) := by
  constructor
  · obtain ⟨dups, h1, _, _, _, h5, _⟩ := duplicateNargs_guard_iff_shared_arity overloads2334 2
    have hd : dups = [3] := h5 (by decide)
    subst hd
    exact ⟨_, h1, rfl, by decide, by decide, by decide, by decide⟩
  · obtain ⟨dups, h1, _, _, _, _, h6⟩ := duplicateNargs_guard_iff_shared_arity overloads121 2
    have hd : dups = [1] := h6 (by decide)
    subst hd
    exact ⟨_, h1, rfl, by decide, by decide⟩

/-! ## Template expansion -/

theorem foldl_push_eq_map {α β : Type} (f : α → β) (l : List α) :
    ∀ acc : List β, l.foldl (fun result a => result ++ [f a]) acc = acc ++ l.map f := by
  induction l with
  | nil => intro acc; simp
  | cons a l ih => intro acc; simp [ih]

/-- The loop of lines 42-47 computes the map of the per-signature expansion. -/
theorem expandArgumentListsTemplate_eq_map
    (expandTemplate : TS → ArgumentList Q → ArgumentList Q)
    (self : ArgumentOverloads Q) (ts : TS) :
    self.expandArgumentListsTemplate expandTemplate ts
      = self.argLists_.map (expandTemplate ts) := by
  unfold expandArgumentListsTemplate
  simpa using foldl_push_eq_map (expandTemplate ts) self.argLists_ []

/-- C2, as the code has it: `ExpandTemplate(S1)` followed by
`ExpandTemplate(S2)` holds the `S2`-expansion of the `S1`-expansion of every
original signature, and this equals the result of `ExpandTemplate(S2)` alone
on the original set exactly when, on every held signature, expanding by `S1`
and then by `S2` gives the same as expanding by `S2` alone. -/
theorem ExpandTemplate_twice_composes
    (expandTemplate : TS → ArgumentList Q → ArgumentList Q)
    (self : ArgumentOverloads Q) (S1 S2 : TS) :
    ((self.ExpandTemplate expandTemplate S1).ExpandTemplate expandTemplate S2).argLists_
        = self.argLists_.map (fun argList => expandTemplate S2 (expandTemplate S1 argList)) ∧
    ((self.ExpandTemplate expandTemplate S1).ExpandTemplate expandTemplate S2
        = self.ExpandTemplate expandTemplate S2 ↔
      ∀ argList ∈ self.argLists_,
        expandTemplate S2 (expandTemplate S1 argList) = expandTemplate S2 argList) := by
  have h1 : ((self.ExpandTemplate expandTemplate S1).ExpandTemplate expandTemplate S2).argLists_
      = self.argLists_.map (fun argList => expandTemplate S2 (expandTemplate S1 argList)) := by
    simp [ExpandTemplate, expandArgumentListsTemplate_eq_map, List.map_map, Function.comp_def]
  refine ⟨h1, ?_⟩
  constructor
  · intro h argList hmem
    have h2 := congrArg ArgumentOverloads.argLists_ h
    rw [h1] at h2
    simp only [ExpandTemplate, expandArgumentListsTemplate_eq_map] at h2
    exact List.map_inj_left.mp h2 argList hmem
  · intro h
    have h2 : (self.ExpandTemplate expandTemplate S2).argLists_
        = self.argLists_.map (expandTemplate S2) := by
      simp [ExpandTemplate, expandArgumentListsTemplate_eq_map]
    have h3 : ((self.ExpandTemplate expandTemplate S1).ExpandTemplate expandTemplate S2).argLists_
        = (self.ExpandTemplate expandTemplate S2).argLists_ := by
      rw [h1, h2]; exact List.map_inj_left.mpr h
    cases hA : (self.ExpandTemplate expandTemplate S1).ExpandTemplate expandTemplate S2
    cases hB : self.ExpandTemplate expandTemplate S2
    rw [hA, hB] at h3
    simpa using h3

/-- C2, as stated, fails: on the set `f(T x)`, expanding `T` to `Point2` and
then `Point2` to `Point3` leaves `f(Point3 x)`, while expanding `Point2` to
`Point3` alone on the original set leaves `f(T x)`. -/
theorem ExpandTemplate_twice_not_replacement :
    (overloadsT.ExpandTemplate ArgumentList.expandTemplate substTPoint2).ExpandTemplate
        ArgumentList.expandTemplate substPoint2Point3
      = { argLists_ := [[{ name := "x", type := "Point3" }]] } ∧
    overloadsT.ExpandTemplate ArgumentList.expandTemplate substPoint2Point3
      = { argLists_ := [[{ name := "x", type := "T" }]] } ∧
    (overloadsT.ExpandTemplate ArgumentList.expandTemplate substTPoint2).ExpandTemplate
        ArgumentList.expandTemplate substPoint2Point3
      ≠ overloadsT.ExpandTemplate ArgumentList.expandTemplate substPoint2Point3 := by
  decide

/-- C3: `expandArgumentListsTemplate(ts)` returns as many signatures as are
held, the `i`-th being the `i`-th held signature with `ts` applied; when the
per-signature expansion keeps the list of argument names, every result
signature has the arity and the argument names, position by position, of its
original.  The function is `const`: it returns the new sequence only and the
held sequence is not part of its result. -/
theorem expandArgumentListsTemplate_pointwise
    (expandTemplate : TS → ArgumentList Q → ArgumentList Q)
    (self : ArgumentOverloads Q) (ts : TS) :
    (self.expandArgumentListsTemplate expandTemplate ts).length = self.nrOverloads ∧
    (∀ i, i < self.nrOverloads →
      ∃ orig, self.argumentList i = .ok orig ∧
        (self.expandArgumentListsTemplate expandTemplate ts)[i]?
          = some (expandTemplate ts orig)) ∧
    ((∀ argList, (expandTemplate ts argList).map Argument.name = argList.map Argument.name) →
      ∀ (i : Nat) (orig inst : ArgumentList Q), self.argLists_[i]? = some orig →
        (self.expandArgumentListsTemplate expandTemplate ts)[i]? = some inst →
          inst.length = orig.length ∧
          inst.map Argument.name = orig.map Argument.name ∧
          ∀ j : Nat, (inst[j]?).map Argument.name = (orig[j]?).map Argument.name) := by
  rw [expandArgumentListsTemplate_eq_map]
  refine ⟨by simp [nrOverloads], ?_, ?_⟩
  · intro i hi
    have hi2 : i < self.argLists_.length := hi
    exact ⟨self.argLists_[i], argumentList_of_lt self i hi2, by
      simp [List.getElem?_eq_getElem hi2]⟩
  · intro hnames i orig inst ho hinst
    simp only [List.getElem?_map, ho, Option.map_some'] at hinst
    have hinst2 : inst = expandTemplate ts orig := (Option.some.inj hinst).symm
    subst hinst2
    have hn := hnames orig
    refine ⟨?_, hn, ?_⟩
    · have := congrArg List.length hn
      simpa using this
    · intro j
      have := congrArg (fun l => l[j]?) hn
      simpa using this

theorem expandArgumentListsTemplate_examples :
    (overloadsT.expandArgumentListsTemplate ArgumentList.expandTemplate substTPoint2).length
      = overloadsT.nrOverloads ∧
    (overloadsT.expandArgumentListsTemplate ArgumentList.expandTemplate substTPoint2)[0]?
      = some [{ name := "x", type := "Point2" }] ∧
    ([{ name := "x", type := "Point2" }] : ArgumentList String).map Argument.name
      = ([{ name := "x", type := "T" }] : ArgumentList String).map Argument.name := by
  have h := expandArgumentListsTemplate_pointwise ArgumentList.expandTemplate overloadsT
    substTPoint2
  have hnames : ∀ argList : ArgumentList String,
      (ArgumentList.expandTemplate substTPoint2 argList).map Argument.name
        = argList.map Argument.name := by
    intro argList; simp [ArgumentList.expandTemplate, Function.comp_def]
  have h4 := h.2.2 hnames 0 [{ name := "x", type := "T" }]
    [{ name := "x", type := "Point2" }] (by decide) (by decide)
  exact ⟨h.1, by decide, h4.2.1⟩

/-! ## Validation -/

theorem verifyArgument_of_mem (qualifiedName : Q → String → String)
    (validArgs : List String) (s : String) (arg : Argument Q)
    (h : qualifiedName arg.type "::" ∈ validArgs) :
    verifyArgument qualifiedName validArgs s arg = .ok () := by
  unfold verifyArgument
  have : ¬ (validArgs.find? (fun v => v == qualifiedName arg.type "::") = none) := by
    simp only [List.find?_eq_none, beq_iff_eq, not_forall, not_not]
    exact ⟨_, h, rfl⟩
  simp only [this, if_false]

theorem verifyArgument_of_not_mem (qualifiedName : Q → String → String)
    (validArgs : List String) (s : String) (arg : Argument Q)
    (h : qualifiedName arg.type "::" ∉ validArgs) :
    verifyArgument qualifiedName validArgs s arg
      = .error (.DependencyMissing (qualifiedName arg.type "::")
          ("checking argument of " ++ s)) := by
  unfold verifyArgument
  have : validArgs.find? (fun v => v == qualifiedName arg.type "::") = none := by
    simp only [List.find?_eq_none, beq_iff_eq]
    intro x hx hxe
    exact h (hxe ▸ hx)
  simp only [this, if_true]

theorem listForM_cons {α : Type} (f : α → Except WrapError Unit) (a : α) (l : List α) :
    (a :: l).forM f = (f a >>= fun _ => l.forM f) := rfl

/-- The nested loops visit the arguments in the order of the flattened
sequence. -/
theorem forM_forM_eq_forM_flatten {α : Type} (f : α → Except WrapError Unit)
    (L : List (List α)) :
    L.forM (fun l => l.forM f) = L.flatten.forM f := by
  induction L with
  | nil => rfl
  | cons l L ih =>
    rw [List.flatten_cons, List.forM_append, listForM_cons, ih]

theorem verifyArguments_eq_walk (qualifiedName : Q → String → String)
    (self : ArgumentOverloads Q) (validArgs : List String) (s : String) :
    self.verifyArguments qualifiedName validArgs s
      = self.argLists_.flatten.forM (verifyArgument qualifiedName validArgs s) := by
  unfold verifyArguments
  exact forM_forM_eq_forM_flatten _ _

theorem forM_verifyArgument_ok (qualifiedName : Q → String → String)
    (validArgs : List String) (s : String) (l : List (Argument Q))
    (h : ∀ b ∈ l, qualifiedName b.type "::" ∈ validArgs) :
    l.forM (verifyArgument qualifiedName validArgs s) = .ok () := by
  induction l with
  | nil => rfl
  | cons a l ih =>
    rw [listForM_cons, verifyArgument_of_mem qualifiedName validArgs s a
      (h a (List.mem_cons_self a l))]
    exact ih (fun b hb => h b (List.mem_cons_of_mem a hb))

theorem forM_verifyArgument_first (qualifiedName : Q → String → String)
    (validArgs : List String) (s : String) (pre post : List (Argument Q)) (a : Argument Q)
    (hpre : ∀ b ∈ pre, qualifiedName b.type "::" ∈ validArgs)
    (ha : qualifiedName a.type "::" ∉ validArgs) :
    (pre ++ a :: post).forM (verifyArgument qualifiedName validArgs s)
      = .error (.DependencyMissing (qualifiedName a.type "::")
          ("checking argument of " ++ s)) := by
  rw [List.forM_append, forM_verifyArgument_ok qualifiedName validArgs s pre hpre,
    listForM_cons, verifyArgument_of_not_mem qualifiedName validArgs s a ha]
  rfl

theorem forM_verifyArgument_cases (qualifiedName : Q → String → String)
    (validArgs : List String) (l : List (Argument Q)) :
    (∀ b ∈ l, qualifiedName b.type "::" ∈ validArgs) ∨
    ∃ pre a post, l = pre ++ a :: post ∧
      (∀ b ∈ pre, qualifiedName b.type "::" ∈ validArgs) ∧
      qualifiedName a.type "::" ∉ validArgs := by
  induction l with
  | nil => left; intro b hb; cases hb
  | cons a l ih =>
    by_cases ha : qualifiedName a.type "::" ∈ validArgs
    · rcases ih with h | ⟨pre, x, post, hl, hpre, hx⟩
      · left
        intro b hb
        rcases List.mem_cons.mp hb with hb | hb
        · exact hb ▸ ha
        · exact h b hb
      · right
        refine ⟨a :: pre, x, post, by simp [hl], ?_, hx⟩
        intro b hb
        rcases List.mem_cons.mp hb with hb | hb
        · exact hb ▸ ha
        · exact hpre b hb
    · right
      exact ⟨[], a, l, rfl, fun b hb => absurd hb (List.not_mem_nil b), ha⟩

/-- C4: `verifyArguments` fails, with `DependencyMissing`, exactly when some
argument of some held signature has a fully qualified type name that is not in
`validArgs`, and completes without error otherwise; it succeeds on an empty
overload set and on a set whose signatures all have zero arguments. -/
theorem verifyArguments_fails_iff (qualifiedName : Q → String → String)
    (self : ArgumentOverloads Q) (validArgs : List String) (s : String) :
    ((∃ dependency location, self.verifyArguments qualifiedName validArgs s
        = .error (.DependencyMissing dependency location)) ↔
      ∃ argList ∈ self.argLists_, ∃ arg ∈ argList,
        qualifiedName arg.type "::" ∉ validArgs) ∧
    (self.verifyArguments qualifiedName validArgs s = .ok () ↔
      ∀ argList ∈ self.argLists_, ∀ arg ∈ argList,
        qualifiedName arg.type "::" ∈ validArgs) ∧
    (self.argLists_ = [] → self.verifyArguments qualifiedName validArgs s = .ok ()) ∧
    ((∀ argList ∈ self.argLists_, argList = []) →
      self.verifyArguments qualifiedName validArgs s = .ok ()) := by
  have hflat : ∀ P : Argument Q → Prop,
      (∀ b ∈ self.argLists_.flatten, P b) ↔ ∀ argList ∈ self.argLists_, ∀ arg ∈ argList, P arg := by
    intro P
    constructor
    · intro h argList hl arg ha
      exact h arg (List.mem_flatten.mpr ⟨argList, hl, ha⟩)
    · intro h b hb
      obtain ⟨argList, hl, ha⟩ := List.mem_flatten.mp hb
      exact h argList hl b ha
  have hok : self.verifyArguments qualifiedName validArgs s = .ok () ↔
      ∀ argList ∈ self.argLists_, ∀ arg ∈ argList,
        qualifiedName arg.type "::" ∈ validArgs := by
    rw [verifyArguments_eq_walk, ← hflat]
    constructor
    · intro h
      rcases forM_verifyArgument_cases qualifiedName validArgs self.argLists_.flatten with
        hall | ⟨pre, a, post, hl, hpre, ha⟩
      · exact hall
      · rw [hl, forM_verifyArgument_first qualifiedName validArgs s pre post a hpre ha] at h
        cases h
    · exact forM_verifyArgument_ok qualifiedName validArgs s _
  refine ⟨?_, hok, ?_, ?_⟩
  · constructor
    · rintro ⟨dependency, location, herr⟩
      by_contra hnone
      have hall : ∀ argList ∈ self.argLists_, ∀ arg ∈ argList,
          qualifiedName arg.type "::" ∈ validArgs := by
        intro argList hl arg ha
        by_contra hbad
        exact hnone ⟨argList, hl, arg, ha, hbad⟩
      rw [hok.mpr hall] at herr
      cases herr
    · rintro ⟨argList, hl, arg, ha, hbad⟩
      rw [verifyArguments_eq_walk]
      rcases forM_verifyArgument_cases qualifiedName validArgs self.argLists_.flatten with
        hall | ⟨pre, a, post, hflatEq, hpre, hna⟩
      · exact absurd (hall arg (List.mem_flatten.mpr ⟨argList, hl, ha⟩)) hbad
      · exact ⟨_, _, by
          rw [hflatEq, forM_verifyArgument_first qualifiedName validArgs s pre post a hpre hna]⟩
  · intro hnil
    exact hok.mpr (fun argList hl => by rw [hnil] at hl; cases hl)
  · intro hzero
    exact hok.mpr (fun argList hl arg ha => by rw [hzero argList hl] at ha; cases ha)

theorem verifyArguments_fails_iff_examples :
    (∃ dependency location, overloadsPose.verifyArguments plainName ["int", "double"] "f"
      = .error (.DependencyMissing dependency location)) ∧
    ({ argLists_ := [] } : ArgumentOverloads String).verifyArguments plainName [] "f"
      = .ok () ∧
    ({ argLists_ := [[], []] } : ArgumentOverloads String).verifyArguments plainName [] "f"
      = .ok () := by
  refine ⟨?_, ?_, ?_⟩
  · exact (verifyArguments_fails_iff plainName overloadsPose ["int", "double"] "f").1.mpr
      ⟨[{ name := "a", type := "int" }, { name := "p", type := "Pose2" }], by decide,
        { name := "p", type := "Pose2" }, by decide, by decide⟩
  · exact (verifyArguments_fails_iff plainName { argLists_ := [] } [] "f").2.2.1 rfl
  · exact (verifyArguments_fails_iff plainName { argLists_ := [[], []] } [] "f").2.2.2
      (by decide)

/-- C5: when `verifyArguments` fails, the error carries the fully qualified
type of the first offending argument in walk order (signatures in declaration
order, arguments in positional order within a signature) and the location
`"checking argument of "` followed by the supplied context; so a set with
exactly one argument whose type is outside `validArgs` fails naming that type,
whatever valid signatures precede or follow it. -/
theorem verifyArguments_names_first_offender (qualifiedName : Q → String → String)
    (self : ArgumentOverloads Q) (validArgs : List String) (s : String) :
    (∀ (pre post : List (Argument Q)) (a : Argument Q),
      self.argLists_.flatten = pre ++ a :: post →
      (∀ b ∈ pre, qualifiedName b.type "::" ∈ validArgs) →
      qualifiedName a.type "::" ∉ validArgs →
      self.verifyArguments qualifiedName validArgs s
        = .error (.DependencyMissing (qualifiedName a.type "::")
            ("checking argument of " ++ s))) ∧
    (∀ e, self.verifyArguments qualifiedName validArgs s = .error e →
      ∃ (pre post : List (Argument Q)) (a : Argument Q),
        self.argLists_.flatten = pre ++ a :: post ∧
        (∀ b ∈ pre, qualifiedName b.type "::" ∈ validArgs) ∧
        qualifiedName a.type "::" ∉ validArgs ∧
        e = .DependencyMissing (qualifiedName a.type "::") ("checking argument of " ++ s)) ∧
    (∀ (before after : List (ArgumentList Q)) (pre post : ArgumentList Q) (a : Argument Q),
      self.argLists_ = before ++ (pre ++ a :: post) :: after →
      (∀ argList ∈ before ++ after, ∀ b ∈ argList, qualifiedName b.type "::" ∈ validArgs) →
      (∀ b ∈ pre ++ post, qualifiedName b.type "::" ∈ validArgs) →
      qualifiedName a.type "::" ∉ validArgs →
      self.verifyArguments qualifiedName validArgs s
        = .error (.DependencyMissing (qualifiedName a.type "::")
            ("checking argument of " ++ s))) := by
  have hfirst : ∀ (pre post : List (Argument Q)) (a : Argument Q),
      self.argLists_.flatten = pre ++ a :: post →
      (∀ b ∈ pre, qualifiedName b.type "::" ∈ validArgs) →
      qualifiedName a.type "::" ∉ validArgs →
      self.verifyArguments qualifiedName validArgs s
        = .error (.DependencyMissing (qualifiedName a.type "::")
            ("checking argument of " ++ s)) := by
    intro pre post a hl hpre ha
    rw [verifyArguments_eq_walk, hl]
    exact forM_verifyArgument_first qualifiedName validArgs s pre post a hpre ha
  refine ⟨hfirst, ?_, ?_⟩
  · intro e he
    rcases forM_verifyArgument_cases qualifiedName validArgs self.argLists_.flatten with
      hall | ⟨pre, a, post, hl, hpre, ha⟩
    · rw [verifyArguments_eq_walk,
        forM_verifyArgument_ok qualifiedName validArgs s _ hall] at he
      cases he
    · refine ⟨pre, post, a, hl, hpre, ha, ?_⟩
      rw [hfirst pre post a hl hpre ha] at he
      exact (Except.error.inj he).symm
  · intro before after pre post a hl hothers hsame ha
    apply hfirst (before.flatten ++ pre) (post ++ after.flatten) a
    · rw [hl]; simp [List.append_assoc]
    · intro b hb
      rcases List.mem_append.mp hb with hb | hb
      · obtain ⟨argList, hal, hba⟩ := List.mem_flatten.mp hb
        exact hothers argList (List.mem_append_left _ hal) b hba
      · exact hsame b (List.mem_append_left _ hb)
    · exact ha

theorem verifyArguments_names_first_offender_example :
    overloadsPose.verifyArguments plainName ["int", "double"] "f"
      = .error (.DependencyMissing "Pose2" "checking argument of f") := by
  exact (verifyArguments_names_first_offender plainName overloadsPose ["int", "double"] "f").2.2
    [[{ name := "a", type := "int" }]] [[{ name := "x", type := "double" }]]
    [{ name := "a", type := "int" }] [] { name := "p", type := "Pose2" }
    (by decide) (by decide) (by decide) (by decide)

/-! ## `push_back` -/

theorem argumentList_push_back_last (self : ArgumentOverloads Q) (args : ArgumentList Q) :
    (self.push_back args).argumentList self.nrOverloads = .ok args := by
  simp [push_back, argumentList, nrOverloads]

theorem argumentList_push_back_earlier (self : ArgumentOverloads Q) (args : ArgumentList Q)
    (i : Nat) (h : i < self.nrOverloads) :
    (self.push_back args).argumentList i = self.argumentList i := by
  have h2 : i < self.argLists_.length := h
  simp [push_back, argumentList, List.getElem?_append_left h2]

end ArgumentOverloads

/-! ## `addOverload` -/

namespace OverloadedFunction

open ArgumentOverloads

variable {Q : Type}

/-- C6: on a fresh `OverloadedFunction`, `addOverload("foo", sig_a)` returns
true and a following `addOverload("foo", sig_b)` with the same instantiation
identity and verbosity returns false; afterwards `nrOverloads()` is 2,
`argumentList(0)` is `sig_a` and `argumentList(1)` is `sig_b`.  For any
`initializeOrCheck`, every successful `addOverload` appends its `args` as the
new last signature and leaves all earlier signatures unchanged, whatever the
returned flag. -/
theorem addOverload_appends [DecidableEq Q] (sig_a sig_b : ArgumentList Q)
    (instName : Option Q) (verbose : Bool) :
    (∃ f1 f2 : OverloadedFunction Q (Function Q),
      (OverloadedFunction.fresh Q).addOverload Function.initializeOrCheck "foo" sig_a
          instName verbose = (.ok true, f1) ∧
      f1.addOverload Function.initializeOrCheck "foo" sig_b instName verbose
        = (.ok false, f2) ∧
      f2.toArgumentOverloads.nrOverloads = 2 ∧
      f2.toArgumentOverloads.argumentList 0 = .ok sig_a ∧
      f2.toArgumentOverloads.argumentList 1 = .ok sig_b) ∧
    (∀ (F : Type)
      (initializeOrCheck : F → String → Option Q → Bool → Except WrapError Bool × F)
      (self : OverloadedFunction Q F) (name : String) (args : ArgumentList Q)
      (inst : Option Q) (verb first : Bool),
      (self.addOverload initializeOrCheck name args inst verb).1 = .ok first →
      (self.addOverload initializeOrCheck name args inst verb).2.toArgumentOverloads.argLists_
          = self.toArgumentOverloads.argLists_ ++ [args] ∧
      (self.addOverload initializeOrCheck name args inst verb).2.toArgumentOverloads.nrOverloads
          = self.toArgumentOverloads.nrOverloads + 1 ∧
      (self.addOverload initializeOrCheck name args inst verb).2.toArgumentOverloads.argumentList
          self.toArgumentOverloads.nrOverloads = .ok args ∧
      ∀ i, i < self.toArgumentOverloads.nrOverloads →
        (self.addOverload initializeOrCheck name args inst verb).2.toArgumentOverloads.argumentList i
          = self.toArgumentOverloads.argumentList i) := by
  constructor
  · refine ⟨{ toFunction := { identity_ := some ("foo", instName) },
                toArgumentOverloads := { argLists_ := [sig_a] } },
              { toFunction := { identity_ := some ("foo", instName) },
                toArgumentOverloads := { argLists_ := [sig_a, sig_b] } },
              rfl, ?_, rfl, rfl, rfl⟩
    simp [OverloadedFunction.addOverload, Function.initializeOrCheck, push_back]
  · intro F initializeOrCheck self name args inst verb first hok
    unfold OverloadedFunction.addOverload at hok ⊢
    rcases hres : initializeOrCheck self.toFunction name inst verb with ⟨res, fn⟩
    rw [hres] at hok
    cases res with
    | error e => simp at hok
    | ok b =>
      simp only []
      refine ⟨rfl, ?_, argumentList_push_back_last _ _, ?_⟩
      · simp [push_back, nrOverloads]
      · intro i hi
        exact argumentList_push_back_earlier _ _ i hi

theorem addOverload_appends_example :
    ((OverloadedFunction.fresh String).addOverload Function.initializeOrCheck "foo"
        [{ name := "a", type := "int" }] none false).1 = .ok true ∧
    ((OverloadedFunction.fresh String).addOverload Function.initializeOrCheck "foo"
        [{ name := "a", type := "int" }] none false).2.toArgumentOverloads.argLists_
      = (OverloadedFunction.fresh String).toArgumentOverloads.argLists_
          ++ [[{ name := "a", type := "int" }]] :=
  ⟨rfl, ((addOverload_appends ([] : ArgumentList String) [] none false).2 (Function String)
    Function.initializeOrCheck (OverloadedFunction.fresh String) "foo"
    [{ name := "a", type := "int" }] none false true rfl).1⟩

/-- C7: when the identity is already established and the supplied identity
conflicts with the stored one, `addOverload` fails with `IdentityConflict` and
leaves the object as it was: `nrOverloads()` and every `argumentList(i)` are
unchanged, the conflicting `args` is not appended, and the stored identity is
still the one that was established.  For any `initializeOrCheck`, a call in
which it throws leaves the held signatures unchanged, and an established
identity is kept by every later call. -/
theorem addOverload_conflict_unchanged [DecidableEq Q]
    (self : OverloadedFunction Q (Function Q)) (stored : String × Option Q)
    (name : String) (args : ArgumentList Q) (instName : Option Q) (verbose : Bool)
    (hest : self.toFunction.identity_ = some stored)
    (hconf : stored ≠ (name, instName)) :
    self.addOverload Function.initializeOrCheck name args instName verbose
      = (.error .IdentityConflict, self) ∧
    (self.addOverload Function.initializeOrCheck name args instName
        verbose).2.toArgumentOverloads.nrOverloads = self.toArgumentOverloads.nrOverloads ∧
    (∀ i, (self.addOverload Function.initializeOrCheck name args instName
        verbose).2.toArgumentOverloads.argumentList i = self.toArgumentOverloads.argumentList i) ∧
    (self.addOverload Function.initializeOrCheck name args instName
        verbose).2.toFunction.identity_ = some stored ∧
    (∀ (name2 : String) (args2 : ArgumentList Q) (inst2 : Option Q) (verb2 : Bool),
      (self.addOverload Function.initializeOrCheck name2 args2 inst2
        verb2).2.toFunction.identity_ = some stored) ∧
    (∀ (F : Type)
      (initializeOrCheck : F → String → Option Q → Bool → Except WrapError Bool × F)
      (other : OverloadedFunction Q F) (e : WrapError),
      (initializeOrCheck other.toFunction name instName verbose).1 = .error e →
      (other.addOverload initializeOrCheck name args instName verbose).1 = .error e ∧
      (other.addOverload initializeOrCheck name args instName verbose).2.toArgumentOverloads
        = other.toArgumentOverloads) := by
  have hmain : self.addOverload Function.initializeOrCheck name args instName verbose
      = (.error .IdentityConflict, self) := by
    simp [OverloadedFunction.addOverload, Function.initializeOrCheck, hest, hconf]
  refine ⟨hmain, by rw [hmain], fun i => by rw [hmain], by rw [hmain]; exact hest, ?_, ?_⟩
  · intro name2 args2 inst2 verb2
    unfold OverloadedFunction.addOverload Function.initializeOrCheck
    rw [hest]
    by_cases hsame : stored = (name2, inst2)
    · subst hsame; simp [hest]
    · simp [hsame, hest]
  · intro F initializeOrCheck other e herr
    unfold OverloadedFunction.addOverload
    rcases hres : initializeOrCheck other.toFunction name instName verbose with ⟨res, fn⟩
    rw [hres] at herr
    cases res with
    | ok b => simp at herr
    | error e2 =>
      simp only [] at herr ⊢
      exact ⟨herr, trivial⟩

theorem addOverload_conflict_example :
    ({ toFunction := { identity_ := some ("foo", none) },
       toArgumentOverloads := { argLists_ := [[{ name := "a", type := "int" }], []] } } :
      OverloadedFunction String (Function String)).addOverload Function.initializeOrCheck
        "bar" [{ name := "x", type := "double" }] none false
      = (.error .IdentityConflict,
          { toFunction := { identity_ := some ("foo", none) },
            toArgumentOverloads := { argLists_ := [[{ name := "a", type := "int" }], []] } }) :=
  (addOverload_conflict_unchanged
    { toFunction := { identity_ := some ("foo", none) },
      toArgumentOverloads := { argLists_ := [[{ name := "a", type := "int" }], []] } }
    ("foo", none) "bar" [{ name := "x", type := "double" }] none false rfl (by decide)).1

end OverloadedFunction

namespace ArgumentOverloads

variable {Q TS : Type}

/-! ## The per-signature guard -/

theorem tabs_succ (k : Nat) :
    String.mk (List.replicate (k + 1) '\t') = String.mk (List.replicate k '\t') ++ "\t" := by
  apply String.ext
  simp [List.replicate_succ']

/-- The first two lines emitted by `pyx_resolveOverloadParams` (lines 78-80). -/
theorem pyx_resolveOverloadParams_head (pyx_paramsList : ArgumentList Q → String)
    (pyx_castParamsToPythonType : ArgumentList Q → String)
    (args : ArgumentList Q) (isVoid : Bool) (indentLevel : Nat) :
    pyx_resolveOverloadParams pyx_paramsList pyx_castParamsToPythonType args isVoid indentLevel
      = String.mk (List.replicate indentLevel '\t')
          ++ "if len(args)+len(kwargs) !=" ++ toString args.length ++ ":\n"
          ++ String.mk (List.replicate (indentLevel + 1) '\t')
          ++ (if isVoid then "return False\n" else "return False, None\n")
          ++ (if args.length > 0 then
                indentOf indentLevel ++ "__params = kwargs.copy()\n"
                ++ indentOf indentLevel ++ "__names = [" ++ pyx_paramsList args ++ "]\n"
                ++ indentOf indentLevel ++ "for i in range(len(args)):\n"
                ++ indentOf indentLevel ++ "\t__params[__names[i]] = args[i]\n"
                ++ indentOf indentLevel ++ "try:\n"
                ++ pyx_castParamsToPythonType args
                ++ indentOf indentLevel ++ "except:\n"
                ++ indentOf indentLevel ++ "\t"
                ++ (if isVoid then "return False\n" else "return False, None\n")
              else "") := by
  have h1 : ("\treturn False" : String) ++ ", None\n" = "\t" ++ "return False, None\n" := by
    decide
  have h2 : ("\treturn False" : String) ++ "\n" = "\t" ++ "return False\n" := by decide
  unfold pyx_resolveOverloadParams
  rw [tabs_succ, ← indentOf_eq]
  by_cases hpos : args.length > 0 <;> cases isVoid <;>
    simp [hpos, String.append_assoc, h1, h2]

/-- C9: for a zero-argument signature and every indentation level `k`,
`pyx_resolveOverloadParams` emits exactly `k` tabs and
`if len(args)+len(kwargs) !=0:`, then `k+1` tabs and `return False, None` when
the callable returns a value, `return False` when it is void; nothing else is
emitted. -/
theorem pyx_resolveOverloadParams_zero_args (pyx_paramsList : ArgumentList Q → String)
    (pyx_castParamsToPythonType : ArgumentList Q → String) (k : Nat) :
    pyx_resolveOverloadParams pyx_paramsList pyx_castParamsToPythonType [] false k
      = String.mk (List.replicate k '\t') ++ "if len(args)+len(kwargs) !=0:\n"
          ++ String.mk (List.replicate (k + 1) '\t') ++ "return False, None\n" ∧
    pyx_resolveOverloadParams pyx_paramsList pyx_castParamsToPythonType [] true k
      = String.mk (List.replicate k '\t') ++ "if len(args)+len(kwargs) !=0:\n"
          ++ String.mk (List.replicate (k + 1) '\t') ++ "return False\n" := by
  have hlit : ("if len(args)+len(kwargs) !=" : String) ++ toString (0 : Nat) ++ ":\n"
      = "if len(args)+len(kwargs) !=0:\n" := by decide
  have hlit2 : ∀ X : String,
      "if len(args)+len(kwargs) !=" ++ (toString (0 : Nat) ++ (":\n" ++ X))
        = "if len(args)+len(kwargs) !=0:\n" ++ X := by
    intro X
    rw [← String.append_assoc, ← String.append_assoc, hlit]
  constructor <;>
    simp [pyx_resolveOverloadParams_head, hlit2, String.append_assoc]

/-- C10: for every signature, `isVoid` and indentation level, the emitted text
begins with the indentation and `if len(args)+len(kwargs) !=<arity>:`, where
`<arity>` is the decimal of the number of arguments, followed by the no-match
return on the next line; the binding and type-check lines come after these
two, so a call with `len(args)+len(kwargs)` different from the arity returns
no-match first. -/
theorem pyx_resolveOverloadParams_starts_with_arity_check
    (pyx_paramsList : ArgumentList Q → String)
    (pyx_castParamsToPythonType : ArgumentList Q → String)
    (args : ArgumentList Q) (isVoid : Bool) (indentLevel : Nat) :
    (∃ rest : String,
      pyx_resolveOverloadParams pyx_paramsList pyx_castParamsToPythonType args isVoid
          indentLevel
        = String.mk (List.replicate indentLevel '\t')
            ++ "if len(args)+len(kwargs) !=" ++ Nat.repr args.length ++ ":\n"
            ++ String.mk (List.replicate (indentLevel + 1) '\t')
            ++ (if isVoid then "return False\n" else "return False, None\n")
            ++ rest) ∧
    (∀ nArgs nKwargs : Nat,
      pyArityMismatch args.length nArgs nKwargs = true ↔ nArgs + nKwargs ≠ args.length) := by
  constructor
  · exact ⟨_, pyx_resolveOverloadParams_head pyx_paramsList pyx_castParamsToPythonType args
      isVoid indentLevel⟩
  · intro nArgs nKwargs
    simp [pyArityMismatch]

/-- The loop of lines 84-85 after `n` rounds: a name is bound to the value at
the last position, among the first `n`, that carries it, and a name carried by
none of them keeps its initial entry. -/
theorem foldlM_pyBindPositional {V : Type} (names : List String) (args : List V)
    (hlen : args.length ≤ names.length) (params0 : String → Option V) :
    ∀ n, n ≤ args.length →
      ∃ params, (List.range n).foldlM (pyBindPositional names args) params0 = some params ∧
        (∀ (j : Nat) (name : String), j < n → names[j]? = some name →
          (∀ j2, j < j2 → j2 < n → names[j2]? ≠ some name) → params name = args[j]?) ∧
        (∀ key, (∀ j, j < n → names[j]? ≠ some key) → params key = params0 key) := by
  intro n
  induction n with
  | zero =>
    intro _
    exact ⟨params0, rfl, fun j _ hj => absurd hj (Nat.not_lt_zero j), fun _ _ => rfl⟩
  | succ k ih =>
    intro hk
    have hka : k < args.length := hk
    have hkn : k < names.length := Nat.lt_of_lt_of_le hka hlen
    obtain ⟨params, hfold, hbound, hother⟩ := ih (Nat.le_of_lt hka)
    refine ⟨fun key => if key = names[k] then some args[k] else params key, ?_, ?_, ?_⟩
    · rw [List.range_succ, List.foldlM_append, hfold]
      simp [pyBindPositional, List.getElem?_eq_getElem hkn, List.getElem?_eq_getElem hka]
    · intro j name hj hname hlast
      by_cases hjk : j = k
      · subst hjk
        rw [List.getElem?_eq_getElem hkn] at hname
        have hn : name = names[j] := (Option.some.inj hname).symm
        simp [hn, List.getElem?_eq_getElem hka]
      · have hjlt : j < k := by omega
        have hne : name ≠ names[k] := by
          intro heq
          exact hlast k hjlt (Nat.lt_succ_self k) (by rw [List.getElem?_eq_getElem hkn, heq])
        simp only [hne, if_false]
        exact hbound j name hjlt hname (fun j2 h1 h2 => hlast j2 h1 (Nat.lt_succ_of_lt h2))
    · intro key hkey
      have hne : key ≠ names[k] := by
        intro heq
        exact hkey k (Nat.lt_succ_self k) (by rw [List.getElem?_eq_getElem hkn, heq])
      simp only [hne, if_false]
      exact hother key (fun j hj => hkey j (Nat.lt_succ_of_lt hj))

/-- C8, as the code has it: for a signature of arity at least 1 the emitted
fragment continues, after the arity check, with `__params = kwargs.copy()`,
`__names = [...]` and the loop `__params[__names[i]] = args[i]`; in a call
that passes the arity check, a parameter name that receives a positional value
is bound in `__params` to that positional value (the one at the last position
carrying the name), also when a keyword value for the same name was supplied,
and a name without positional value keeps its keyword entry.  When the
parameter names are pairwise distinct, the `i`-th name is bound to the `i`-th
positional value. -/
theorem pyx_resolveOverloadParams_positional_overrides_keyword {V : Type}
    (pyx_paramsList : ArgumentList Q → String)
    (pyx_castParamsToPythonType : ArgumentList Q → String)
    (sig : ArgumentList Q) (isVoid : Bool) (indentLevel : Nat)
    (args : List V) (kwargs : List (String × V))
    (harity : sig.length ≥ 1)
    (hcall : pyArityMismatch sig.length args.length kwargs.length = false) :
    pyx_resolveOverloadParams pyx_paramsList pyx_castParamsToPythonType sig isVoid
        indentLevel
      = String.mk (List.replicate indentLevel '\t')
          ++ "if len(args)+len(kwargs) !=" ++ Nat.repr sig.length ++ ":\n"
          ++ String.mk (List.replicate (indentLevel + 1) '\t')
          ++ (if isVoid then "return False\n" else "return False, None\n")
          ++ String.mk (List.replicate indentLevel '\t') ++ "__params = kwargs.copy()\n"
          ++ String.mk (List.replicate indentLevel '\t')
          ++ "__names = [" ++ pyx_paramsList sig ++ "]\n"
          ++ String.mk (List.replicate indentLevel '\t') ++ "for i in range(len(args)):\n"
          ++ String.mk (List.replicate (indentLevel + 1) '\t')
          ++ "__params[__names[i]] = args[i]\n"
          ++ String.mk (List.replicate indentLevel '\t') ++ "try:\n"
          ++ pyx_castParamsToPythonType sig
          ++ String.mk (List.replicate indentLevel '\t') ++ "except:\n"
          ++ String.mk (List.replicate (indentLevel + 1) '\t')
          ++ (if isVoid then "return False\n" else "return False, None\n") ∧
    ∃ params, pyBindParams (sig.map Argument.name) args kwargs = some params ∧
      (∀ (i : Nat) (name : String), i < args.length →
        (sig.map Argument.name)[i]? = some name →
        (∀ j, i < j → j < args.length → (sig.map Argument.name)[j]? ≠ some name) →
        ∃ value, args[i]? = some value ∧ params name = some value) ∧
      ((sig.map Argument.name).Nodup →
        ∀ i, i < args.length → ∃ name value,
          (sig.map Argument.name)[i]? = some name ∧ args[i]? = some value ∧
          params name = some value) ∧
      (∀ key, (∀ i, i < args.length → (sig.map Argument.name)[i]? ≠ some key) →
        params key = kwargs.lookup key) := by
  constructor
  · have hpos : sig.length > 0 := harity
    have htab : ∀ X : String, ("\t__params[__names[i]] = args[i]\n" : String) ++ X
        = "\t" ++ ("__params[__names[i]] = args[i]\n" ++ X) := by
      intro X
      rw [← String.append_assoc]
      rfl
    rw [pyx_resolveOverloadParams_head]
    simp only [hpos, if_true, indentOf_eq, tabs_succ, String.append_assoc, htab]
    rfl
  · have hsum : args.length + kwargs.length = sig.length := by
      simpa [pyArityMismatch] using hcall
    have hlen : args.length ≤ (sig.map Argument.name).length := by
      rw [List.length_map]; omega
    obtain ⟨params, hp, hbound, hother⟩ :=
      foldlM_pyBindPositional (sig.map Argument.name) args hlen
        (fun key => kwargs.lookup key) args.length (Nat.le_refl _)
    have hlast : ∀ (i : Nat) (name : String), i < args.length →
        (sig.map Argument.name)[i]? = some name →
        (∀ j, i < j → j < args.length → (sig.map Argument.name)[j]? ≠ some name) →
        ∃ value, args[i]? = some value ∧ params name = some value := by
      intro i name hi hname hl
      refine ⟨args[i], List.getElem?_eq_getElem hi, ?_⟩
      rw [hbound i name hi hname hl, List.getElem?_eq_getElem hi]
    refine ⟨params, hp, hlast, ?_, hother⟩
    intro hnodup i hi
    have hin : i < (sig.map Argument.name).length := Nat.lt_of_lt_of_le hi hlen
    have hname : (sig.map Argument.name)[i]? = some (sig.map Argument.name)[i] :=
      List.getElem?_eq_getElem hin
    obtain ⟨value, hv, hpv⟩ := hlast i _ hi hname (by
      intro j hij hj heq
      have hjn : j < (sig.map Argument.name).length := Nat.lt_of_lt_of_le hj hlen
      rw [List.getElem?_eq_getElem hjn] at heq
      have h1 : (sig.map Argument.name)[j] = (sig.map Argument.name)[i] :=
        Option.some.inj heq
      have := (hnodup.getElem_inj_iff).mp h1
      omega)
    exact ⟨_, value, hname, hv, hpv⟩

theorem pyx_resolveOverloadParams_positional_example :
    pyArityMismatch signatureAB.length 1 1 = false ∧
    ∃ params, pyBindParams (signatureAB.map Argument.name) [(1 : Nat)] [("a", 2)]
        = some params ∧
      params "a" = some 1 := by
  obtain ⟨_, params, hp, hbound, _, _⟩ :=
    pyx_resolveOverloadParams_positional_overrides_keyword (fun _ => "\x27a\x27, \x27b\x27")
      (fun _ => "") signatureAB false 2 [(1 : Nat)] [("a", 2)] (by decide) (by decide)
  obtain ⟨value, hvalue, hpv⟩ := hbound 0 "a" (by decide) (by decide)
    (fun j h1 h2 => by simp at h2; omega)
  have h2 : value = 1 := (Option.some.inj hvalue).symm
  subst h2
  exact ⟨by decide, params, hp, hpv⟩

/-- C8, as stated, fails: for `f(int a, int b)` called with the positional
value `1` and the keyword argument `a=2`, the call passes the arity check and
the entry of `__params` for `a` is the positional value `1`, not the keyword
value `2`. -/
theorem pyx_resolveOverloadParams_keyword_not_kept :
    pyArityMismatch signatureAB.length [(1 : Nat)].length [("a", (2 : Nat))].length = false ∧
    (signatureAB.map Argument.name)[0]? = some "a" ∧
    [("a", (2 : Nat))].lookup "a" = some 2 ∧
    (pyBindParams (signatureAB.map Argument.name) [(1 : Nat)] [("a", 2)]).map
        (fun params => params "a") = some (some 1) ∧
    (pyBindParams (signatureAB.map Argument.name) [(1 : Nat)] [("a", 2)]).map
        (fun params => params "a") ≠ some (some 2) := by
  decide

/-! ## The try block of the per-signature guard -/

/-- The whole text emitted by `pyx_resolveOverloadParams` for a signature
with at least one argument (lines 78-90). -/
theorem pyx_resolveOverloadParams_full (pyx_paramsList : ArgumentList Q → String)
    (pyx_castParamsToPythonType : ArgumentList Q → String)
    (args : ArgumentList Q) (isVoid : Bool) (indentLevel : Nat)
    (harity : args.length ≥ 1) :
    pyx_resolveOverloadParams pyx_paramsList pyx_castParamsToPythonType args isVoid
        indentLevel
      = String.mk (List.replicate indentLevel '\t')
          ++ "if len(args)+len(kwargs) !=" ++ Nat.repr args.length ++ ":\n"
          ++ String.mk (List.replicate (indentLevel + 1) '\t')
          ++ (if isVoid then "return False\n" else "return False, None\n")
          ++ String.mk (List.replicate indentLevel '\t') ++ "__params = kwargs.copy()\n"
          ++ String.mk (List.replicate indentLevel '\t')
          ++ "__names = [" ++ pyx_paramsList args ++ "]\n"
          ++ String.mk (List.replicate indentLevel '\t') ++ "for i in range(len(args)):\n"
          ++ String.mk (List.replicate (indentLevel + 1) '\t')
          ++ "__params[__names[i]] = args[i]\n"
          ++ String.mk (List.replicate indentLevel '\t') ++ "try:\n"
          ++ pyx_castParamsToPythonType args
          ++ String.mk (List.replicate indentLevel '\t') ++ "except:\n"
          ++ String.mk (List.replicate (indentLevel + 1) '\t')
          ++ (if isVoid then "return False\n" else "return False, None\n") := by
  have hpos : args.length > 0 := harity
  have htab : ∀ X : String, ("\t__params[__names[i]] = args[i]\n" : String) ++ X
      = "\t" ++ ("__params[__names[i]] = args[i]\n" ++ X) := by
    intro X
    rw [← String.append_assoc]
    rfl
  rw [pyx_resolveOverloadParams_head]
  simp only [hpos, if_true, indentOf_eq, tabs_succ, String.append_assoc, htab]
  rfl

/-- C11: for a signature of arity at least 1, the emitted guard puts the
per-argument type checks between a `try:` line and an `except:` line at the
indentation of the guard, and the `except` branch is a no-match return, no
raise; the no-match return after the arity check and the one in the `except`
branch are the same text, `return False` when `isVoid` is true and
`return False, None` when it is false. -/
theorem pyx_resolveOverloadParams_try_except (pyx_paramsList : ArgumentList Q → String)
    (pyx_castParamsToPythonType : ArgumentList Q → String)
    (args : ArgumentList Q) (isVoid : Bool) (indentLevel : Nat)
    (harity : args.length ≥ 1) :
    ∃ arityCheck binding noMatch : String,
      noMatch = String.mk (List.replicate (indentLevel + 1) '\t')
          ++ (if isVoid then "return False\n" else "return False, None\n") ∧
      arityCheck = String.mk (List.replicate indentLevel '\t')
          ++ "if len(args)+len(kwargs) !=" ++ Nat.repr args.length ++ ":\n" ∧
      binding = String.mk (List.replicate indentLevel '\t') ++ "__params = kwargs.copy()\n"
          ++ String.mk (List.replicate indentLevel '\t')
          ++ "__names = [" ++ pyx_paramsList args ++ "]\n"
          ++ String.mk (List.replicate indentLevel '\t') ++ "for i in range(len(args)):\n"
          ++ String.mk (List.replicate (indentLevel + 1) '\t')
          ++ "__params[__names[i]] = args[i]\n" ∧
      pyx_resolveOverloadParams pyx_paramsList pyx_castParamsToPythonType args isVoid
          indentLevel
        = arityCheck ++ noMatch ++ binding
            ++ String.mk (List.replicate indentLevel '\t') ++ "try:\n"
            ++ pyx_castParamsToPythonType args
            ++ String.mk (List.replicate indentLevel '\t') ++ "except:\n"
            ++ noMatch := by
  refine ⟨_, _, _, rfl, rfl, rfl, ?_⟩
  rw [pyx_resolveOverloadParams_full pyx_paramsList pyx_castParamsToPythonType args isVoid
    indentLevel harity]
  simp only [String.append_assoc]

theorem pyx_resolveOverloadParams_try_except_example :
    pyx_resolveOverloadParams quotedNames checkAll signatureAB true 2
      = "\t\tif len(args)+len(kwargs) !=2:\n"
        ++ "\t\t\treturn False\n"
        ++ "\t\t__params = kwargs.copy()\n"
        ++ "\t\t__names = [\x27a\x27, \x27b\x27]\n"
        ++ "\t\tfor i in range(len(args)):\n"
        ++ "\t\t\t__params[__names[i]] = args[i]\n"
        ++ "\t\ttry:\n"
        ++ "\t\t\tcheck(__params)\n"
        ++ "\t\texcept:\n"
        ++ "\t\t\treturn False\n" := by
  obtain ⟨arityCheck, binding, noMatch, h1, h2, h3, h4⟩ :=
    pyx_resolveOverloadParams_try_except quotedNames checkAll signatureAB true 2 (by decide)
  rw [h4, h1, h2, h3]
  rfl

/-! ## Storage and query -/

theorem foldl_push_back (pushed : List (ArgumentList Q)) :
    ∀ start : ArgumentOverloads Q,
      (pushed.foldl push_back start).argLists_ = start.argLists_ ++ pushed := by
  induction pushed with
  | nil => intro start; simp
  | cons a rest ih => intro start; simp [ih, push_back]

/-- C12: `argumentList(i)` returns the `i`-th held signature, counted from 0
in declaration order, when `i < nrOverloads()`, and fails with the
out-of-range error when `i >= nrOverloads()`; on an empty set every index
fails; after any sequence of `push_back` calls on an empty set,
`nrOverloads()` is the number of calls and `argumentList(i)` is the signature
of the `i`-th call. -/
theorem argumentList_in_range_iff (self : ArgumentOverloads Q) :
    (∀ i, i < self.nrOverloads →
      ∃ argList, self.argLists_[i]? = some argList ∧ self.argumentList i = .ok argList) ∧
    (∀ i, self.nrOverloads ≤ i → self.argumentList i = .error .IndexOutOfRange) ∧
    (∀ i : Nat, ({ argLists_ := [] } : ArgumentOverloads Q).argumentList i
      = .error .IndexOutOfRange) ∧
    (∀ pushed : List (ArgumentList Q),
      (pushAll pushed).nrOverloads = pushed.length ∧
      ∀ (i : Nat) (argList : ArgumentList Q), pushed[i]? = some argList →
        (pushAll pushed).argumentList i = .ok argList) := by
  refine ⟨?_, ?_, ?_, ?_⟩
  · intro i hi
    have hi2 : i < self.argLists_.length := hi
    exact ⟨self.argLists_[i], List.getElem?_eq_getElem hi2, argumentList_of_lt self i hi2⟩
  · intro i hi
    exact argumentList_of_ge self i hi
  · intro i
    exact argumentList_of_ge _ i (Nat.zero_le i)
  · intro pushed
    have hlists : (pushAll pushed).argLists_ = pushed := by
      unfold pushAll
      rw [foldl_push_back]
      rfl
    refine ⟨by simp [nrOverloads, hlists], ?_⟩
    intro i argList hget
    simp [argumentList, hlists, hget]

theorem argumentList_in_range_examples :
    overloadsPose.argumentList 1
      = .ok [{ name := "a", type := "int" }, { name := "p", type := "Pose2" }] ∧
    overloadsPose.argumentList 3 = .error .IndexOutOfRange ∧
    (pushAll [[{ name := "a", type := "int" }], ([] : ArgumentList String)]).argumentList 1
      = .ok [] := by
  have h := argumentList_in_range_iff overloadsPose
  obtain ⟨argList, hget, hok⟩ := h.1 1 (by decide)
  have hval : argList = [{ name := "a", type := "int" }, { name := "p", type := "Pose2" }] :=
    (Option.some.inj hget).symm
  subst hval
  exact ⟨hok, h.2.1 3 (by decide),
    (h.2.2.2 [[{ name := "a", type := "int" }], []]).2 1 [] (by decide)⟩

/-- C13: after `push_back(L)` on a set holding `N` signatures the set holds
`N+1` signatures, `argumentList(N)` is `L` and `argumentList(i)` is unchanged
for every `i < N`; this holds for every `L`, also one equal to a held
signature or of the same arity as one: the held sequence is the old sequence
followed by `L`, and the number of held copies of `L` grows by one. -/
theorem push_back_appends [DecidableEq Q] (self : ArgumentOverloads Q) (L : ArgumentList Q) :
    (self.push_back L).nrOverloads = self.nrOverloads + 1 ∧
    (self.push_back L).argumentList self.nrOverloads = .ok L ∧
    (∀ i, i < self.nrOverloads →
      (self.push_back L).argumentList i = self.argumentList i) ∧
    (self.push_back L).argLists_ = self.argLists_ ++ [L] ∧
    (self.push_back L).argLists_.count L = self.argLists_.count L + 1 := by
  refine ⟨by simp [push_back, nrOverloads], argumentList_push_back_last self L,
    fun i hi => argumentList_push_back_earlier self L i hi, rfl, ?_⟩
  simp [push_back, List.count_append]

theorem push_back_appends_example :
    (overloadsT.push_back [{ name := "x", type := "T" }]).argLists_
      = [[{ name := "x", type := "T" }], [{ name := "x", type := "T" }]] ∧
    (overloadsT.push_back [{ name := "x", type := "T" }]).argumentList 0
      = overloadsT.argumentList 0 ∧
    (overloadsT.push_back [{ name := "x", type := "T" }]).argLists_.count
        [{ name := "x", type := "T" }] = 2 := by
  have h := push_back_appends overloadsT [{ name := "x", type := "T" }]
  exact ⟨h.2.2.2.1, h.2.2.1 0 (by decide), h.2.2.2.2⟩

/-! ## Repeated template expansion -/

/-- C16: after `ExpandTemplate(S1)` followed by `ExpandTemplate(S2)` the set
holds as many signatures as before, and its `i`-th signature is the expansion
by `S2` of the expansion by `S1` of the original `i`-th signature; each call
replaces the held sequence by `expandArgumentListsTemplate` of the sequence
held when it is called. -/
theorem ExpandTemplate_twice_pointwise
    (expandTemplate : TS → ArgumentList Q → ArgumentList Q)
    (self : ArgumentOverloads Q) (S1 S2 : TS) :
    ((self.ExpandTemplate expandTemplate S1).ExpandTemplate expandTemplate S2).nrOverloads
      = self.nrOverloads ∧
    (∀ i, i < self.nrOverloads → ∃ orig, self.argumentList i = .ok orig ∧
      ((self.ExpandTemplate expandTemplate S1).ExpandTemplate expandTemplate S2).argumentList i
        = .ok (expandTemplate S2 (expandTemplate S1 orig))) ∧
    (∀ i, self.nrOverloads ≤ i →
      ((self.ExpandTemplate expandTemplate S1).ExpandTemplate expandTemplate S2).argumentList i
        = .error .IndexOutOfRange) ∧
    (self.ExpandTemplate expandTemplate S1).argLists_
      = self.expandArgumentListsTemplate expandTemplate S1 ∧
    ((self.ExpandTemplate expandTemplate S1).ExpandTemplate expandTemplate S2).argLists_
      = (self.ExpandTemplate expandTemplate S1).expandArgumentListsTemplate expandTemplate S2 := by
  have hlists :
      ((self.ExpandTemplate expandTemplate S1).ExpandTemplate expandTemplate S2).argLists_
        = self.argLists_.map (fun argList => expandTemplate S2 (expandTemplate S1 argList)) := by
    simp [ExpandTemplate, expandArgumentListsTemplate_eq_map, List.map_map, Function.comp_def]
  have hlen :
      ((self.ExpandTemplate expandTemplate S1).ExpandTemplate expandTemplate S2).argLists_.length
        = self.argLists_.length := by
    rw [hlists, List.length_map]
  refine ⟨hlen, ?_, ?_, rfl, rfl⟩
  · intro i hi
    have hi2 : i < self.argLists_.length := hi
    refine ⟨self.argLists_[i], argumentList_of_lt self i hi2, ?_⟩
    unfold argumentList
    rw [hlists]
    simp [List.getElem?_eq_getElem hi2]
  · intro i hi
    apply argumentList_of_ge
    rw [hlen]
    exact hi

theorem ExpandTemplate_twice_pointwise_example :
    ((overloadsT.ExpandTemplate ArgumentList.expandTemplate substTPoint2).ExpandTemplate
        ArgumentList.expandTemplate substPoint2Point3).argumentList 0
      = .ok [{ name := "x", type := "Point3" }] := by
  obtain ⟨orig, horig, h⟩ :=
    (ExpandTemplate_twice_pointwise ArgumentList.expandTemplate overloadsT substTPoint2
      substPoint2Point3).2.1 0 (by decide)
  have ho : orig = [{ name := "x", type := "T" }] := by
    have : (Except.ok orig : Except WrapError (ArgumentList String))
        = .ok [{ name := "x", type := "T" }] := horig.symm.trans rfl
    exact Except.ok.inj this
  subst ho
  exact h.trans rfl

/-! ## The ambiguity guard as a function of the arities -/

/-- The guard text is a function of the ordered sequence of arities. -/
theorem pyx_checkDuplicateNargsKwArgs_eq (self : ArgumentOverloads Q) (indentLevel : Nat) :
    self.pyx_checkDuplicateNargsKwArgs indentLevel
      = .ok (duplicateNargsText (indentOf indentLevel)
          ((self.argLists_.map List.length).foldl nargsUpdate ⟨[], []⟩).nargsDuplicates) := by
  unfold pyx_checkDuplicateNargsKwArgs
  rw [nargsDuplicates_eq self]

theorem nargsDuplicates_eq_nil_iff (p : List Nat) :
    (p.foldl nargsUpdate ⟨[], []⟩).nargsDuplicates = [] ↔ p.Nodup := by
  have hinv := scanInv_all p
  rw [List.nodup_iff_count_le_one]
  constructor
  · intro hnil n
    have := (hinv n).2
    rw [hnil] at this
    by_cases hn : n ∈ p
    · simp only [hn, if_true, List.count_nil] at this; omega
    · simp only [hn, if_false, List.count_nil] at this; omega
  · intro hle
    apply List.eq_nil_iff_forall_not_mem.mpr
    intro n hmem
    have hpos : 0 < List.count n (p.foldl nargsUpdate ⟨[], []⟩).nargsDuplicates :=
      List.count_pos_iff.mpr hmem
    have := (hinv n).2
    have h1 := hle n
    by_cases hn : n ∈ p
    · simp only [hn, if_true] at this; omega
    · have h0 : p.count n = 0 := List.count_eq_zero.mpr hn
      simp only [hn, if_false] at this; omega

theorem digitChar_ne_newline (d : Nat) (h : d < 10) : Nat.digitChar d ≠ '\n' := by
  interval_cases d <;> decide

theorem toDigitsCore_no_newline :
    ∀ (fuel n : Nat) (acc : List Char), (∀ c ∈ acc, c ≠ '\n') →
      ∀ c ∈ Nat.toDigitsCore 10 fuel n acc, c ≠ '\n' := by
  intro fuel
  induction fuel with
  | zero => intro n acc hacc; simpa [Nat.toDigitsCore] using hacc
  | succ fuel ih =>
    intro n acc hacc
    have hd : ∀ c ∈ Nat.digitChar (n % 10) :: acc, c ≠ '\n' := by
      intro c hc
      rcases List.mem_cons.mp hc with hc | hc
      · rw [hc]; exact digitChar_ne_newline _ (Nat.mod_lt n (by decide))
      · exact hacc c hc
    unfold Nat.toDigitsCore
    by_cases hz : n / 10 = 0
    · simp only [hz, if_true]; exact hd
    · simp only [hz, if_false]; exact ih _ _ hd

theorem toString_no_newline (n : Nat) : ∀ c ∈ (toString n).data, c ≠ '\n' := by
  show ∀ c ∈ Nat.toDigits 10 n, c ≠ '\n'
  exact toDigitsCore_no_newline _ _ [] (fun c hc => absurd hc (List.not_mem_nil c))

theorem intercalate_no_newline (l : List Nat) :
    ∀ c ∈ (",".intercalate (l.map toString)).data, c ≠ '\n' := by
  induction l using List.reverseRecOn with
  | nil => intro c hc; simp [String.intercalate] at hc
  | append_singleton l x ih =>
    intro c hc
    rw [List.map_append, List.map_singleton, intercalate_snoc] at hc
    by_cases hl : List.map toString l = []
    · simp only [hl, if_true] at hc
      exact toString_no_newline x c hc
    · simp only [hl, if_false, String.data_append, List.mem_append] at hc
      rcases hc with (hc | hc) | hc
      · exact ih c hc
      · have : c = ',' := by simpa using hc
        rw [this]; decide
      · exact toString_no_newline x c hc

theorem count_newline_tabs (k : Nat) : (List.replicate k '\t').count '\n' = 0 := by
  apply List.count_eq_zero.mpr
  intro h
  have := List.eq_of_mem_replicate h
  exact absurd this (by decide)

/-- C17: `pyx_checkDuplicateNargsKwArgs` returns the empty string exactly when
the arities of the held signatures are pairwise distinct, which includes the
empty set and every set of one signature; otherwise it returns two lines, each
ended by a newline: `indentLevel` tabs and
`if len(kwargs)==0 and len(args)+len(kwargs) in [...]:`, then `indentLevel+1`
tabs and the `raise TypeError(...)` that asks for keyword arguments. -/
theorem pyx_checkDuplicateNargsKwArgs_empty_iff (self : ArgumentOverloads Q)
    (indentLevel : Nat) :
    ∃ text : String,
      self.pyx_checkDuplicateNargsKwArgs indentLevel = .ok text ∧
      (text = "" ↔ (self.argLists_.map List.length).Nodup) ∧
      (self.argLists_.length ≤ 1 → text = "") ∧
      (¬ (self.argLists_.map List.length).Nodup →
        ∃ arities : String,
          (∀ c ∈ arities.data, c ≠ '\n') ∧
          text = String.mk (List.replicate indentLevel '\t')
            ++ "if len(kwargs)==0 and len(args)+len(kwargs) in [" ++ arities ++ "]:\n"
            ++ String.mk (List.replicate (indentLevel + 1) '\t')
            ++ "raise TypeError('Overloads with the same number of arguments exist. Please use keyword arguments to differentiate them!')\n" ∧
          text.data.count '\n' = 2) := by
  have hraise : ("\traise TypeError('Overloads with the same number of arguments exist. Please use keyword arguments to differentiate them!')\n" : String)
      = "\t" ++ "raise TypeError('Overloads with the same number of arguments exist. Please use keyword arguments to differentiate them!')\n" := by
    decide
  have hform : ∀ d : List Nat, d ≠ [] →
      duplicateNargsText (indentOf indentLevel) d
        = String.mk (List.replicate indentLevel '\t')
            ++ "if len(kwargs)==0 and len(args)+len(kwargs) in ["
            ++ ",".intercalate (d.map toString) ++ "]:\n"
            ++ String.mk (List.replicate (indentLevel + 1) '\t')
            ++ "raise TypeError('Overloads with the same number of arguments exist. Please use keyword arguments to differentiate them!')\n" := by
    intro d hd
    rw [duplicateNargsText_eq, if_neg hd, indentOf_eq, tabs_succ, hraise]
    simp only [String.append_assoc]
  have hcount : ∀ d : List Nat, d ≠ [] →
      (duplicateNargsText (indentOf indentLevel) d).data.count '\n' = 2 := by
    intro d hd
    rw [hform d hd]
    have harities : (",".intercalate (d.map toString)).data.count '\n' = 0 :=
      List.count_eq_zero.mpr (fun h => intercalate_no_newline d _ h rfl)
    have hl1 : ("if len(kwargs)==0 and len(args)+len(kwargs) in [" : String).data.count '\n'
        = 0 := by decide
    have hl2 : ("]:\n" : String).data.count '\n' = 1 := by decide
    have hl3 : ("raise TypeError('Overloads with the same number of arguments exist. Please use keyword arguments to differentiate them!')\n" : String).data.count '\n'
        = 1 := by decide
    simp only [String.data_append, List.count_append, count_newline_tabs, harities, hl1,
      hl2, hl3]
  have hne : ∀ d : List Nat, d ≠ [] → duplicateNargsText (indentOf indentLevel) d ≠ "" := by
    intro d hd h
    have h2 := hcount d hd
    rw [h] at h2
    exact absurd h2 (by decide)
  refine ⟨_, pyx_checkDuplicateNargsKwArgs_eq self indentLevel, ?_, ?_, ?_⟩
  · rw [← nargsDuplicates_eq_nil_iff]
    constructor
    · intro h
      by_contra hd
      exact hne _ hd h
    · intro h
      rw [h, duplicateNargsText_eq, if_pos rfl]
  · intro hlen
    have hnil : ((self.argLists_.map List.length).foldl nargsUpdate ⟨[], []⟩).nargsDuplicates
        = [] := by
      rw [nargsDuplicates_eq_nil_iff]
      match hl : self.argLists_, hlen with
      | [], _ => simp
      | [a], _ => simp
      | a :: b :: rest, h => simp [hl] at hlen
    rw [hnil, duplicateNargsText_eq, if_pos rfl]
  · intro hdup
    have hd : ((self.argLists_.map List.length).foldl nargsUpdate ⟨[], []⟩).nargsDuplicates
        ≠ [] := fun h => hdup ((nargsDuplicates_eq_nil_iff _).mp h)
    exact ⟨_, intercalate_no_newline _, hform _ hd, hcount _ hd⟩

theorem pyx_checkDuplicateNargsKwArgs_empty_iff_examples :
    overloads121.pyx_checkDuplicateNargsKwArgs 1
      = .ok ("\tif len(kwargs)==0 and len(args)+len(kwargs) in [1]:\n"
          ++ "\t\traise TypeError('Overloads with the same number of arguments exist. Please use keyword arguments to differentiate them!')\n") ∧
    (∃ text, overloadsPose.pyx_checkDuplicateNargsKwArgs 1 = .ok text ∧
      text.data.count '\n' = 2) ∧
    overloadsT.pyx_checkDuplicateNargsKwArgs 1 = .ok "" := by
  refine ⟨rfl, ?_, ?_⟩
  · obtain ⟨text, htext, _, _, h⟩ := pyx_checkDuplicateNargsKwArgs_empty_iff overloadsPose 1
    obtain ⟨_, _, _, hcount⟩ := h (by decide)
    exact ⟨text, htext, hcount⟩
  · obtain ⟨text, htext, _, h, _⟩ := pyx_checkDuplicateNargsKwArgs_empty_iff overloadsT 1
    rw [htext, h (by decide)]

/-- C19: when the per-signature template expansion keeps the arity of every
held signature, `pyx_checkDuplicateNargsKwArgs` returns the same text after
`ExpandTemplate(ts)` as before it, at every indentation level; two overload
sets with the same ordered sequence of arities have the same guard. -/
theorem pyx_checkDuplicateNargsKwArgs_ExpandTemplate
    (expandTemplate : TS → ArgumentList Q → ArgumentList Q)
    (self : ArgumentOverloads Q) (ts : TS) (indentLevel : Nat)
    (harity : ∀ argList ∈ self.argLists_,
      (expandTemplate ts argList).length = argList.length) :
    (self.ExpandTemplate expandTemplate ts).pyx_checkDuplicateNargsKwArgs indentLevel
      = self.pyx_checkDuplicateNargsKwArgs indentLevel ∧
    (∃ text, self.pyx_checkDuplicateNargsKwArgs indentLevel = .ok text) ∧
    (∀ other : ArgumentOverloads Q,
      other.argLists_.map List.length = self.argLists_.map List.length →
      other.pyx_checkDuplicateNargsKwArgs indentLevel
        = self.pyx_checkDuplicateNargsKwArgs indentLevel) := by
  have hcongr : ∀ other : ArgumentOverloads Q,
      other.argLists_.map List.length = self.argLists_.map List.length →
      other.pyx_checkDuplicateNargsKwArgs indentLevel
        = self.pyx_checkDuplicateNargsKwArgs indentLevel := by
    intro other h
    rw [pyx_checkDuplicateNargsKwArgs_eq, pyx_checkDuplicateNargsKwArgs_eq, h]
  refine ⟨hcongr _ ?_, ⟨_, pyx_checkDuplicateNargsKwArgs_eq self indentLevel⟩, hcongr⟩
  simp only [ExpandTemplate, expandArgumentListsTemplate_eq_map, List.map_map]
  apply List.map_congr_left
  intro argList hmem
  exact harity argList hmem

theorem pyx_checkDuplicateNargsKwArgs_ExpandTemplate_example :
    (overloads121.ExpandTemplate ArgumentList.expandTemplate
        { placeholder := "double", concrete := "int" }).argLists_
      = [exampleArgs ["a"] "int", exampleArgs ["a", "b"] "int", exampleArgs ["x"] "int"] ∧
    (overloads121.ExpandTemplate ArgumentList.expandTemplate
        { placeholder := "double", concrete := "int" }).pyx_checkDuplicateNargsKwArgs 1
      = overloads121.pyx_checkDuplicateNargsKwArgs 1 :=
  ⟨by decide,
    (pyx_checkDuplicateNargsKwArgs_ExpandTemplate ArgumentList.expandTemplate overloads121
      { placeholder := "double", concrete := "int" } 1
      (fun argList _ => by simp [ArgumentList.expandTemplate])).1⟩

/-! ## The arity list is not deduplicated -/

theorem nargsUpdate_of_mem (st : NargsScan) (a : Nat) (h : a ∈ st.nargsSet) :
    nargsUpdate st a
      = { nargsSet := st.nargsSet, nargsDuplicates := st.nargsDuplicates ++ [a] } := by
  simp [nargsUpdate, h]

theorem nargsUpdate_of_not_mem (st : NargsScan) (a : Nat) (h : a ∉ st.nargsSet) :
    nargsUpdate st a
      = { nargsSet := a :: st.nargsSet, nargsDuplicates := st.nargsDuplicates } := by
  simp [nargsUpdate, h]

theorem scan_lengths (rest : List Nat) :
    ∀ st : NargsScan,
      (rest.foldl nargsUpdate st).nargsDuplicates.length
          + (rest.foldl nargsUpdate st).nargsSet.length
        = st.nargsDuplicates.length + st.nargsSet.length + rest.length := by
  induction rest with
  | nil => intro st; simp
  | cons a rest ih =>
    intro st
    rw [List.foldl_cons, ih]
    by_cases h : a ∈ st.nargsSet
    · rw [nargsUpdate_of_mem st a h]
      simp only [List.length_append, List.length_cons, List.length_nil]; omega
    · rw [nargsUpdate_of_not_mem st a h]
      simp only [List.length_cons]; omega

theorem scan_nodup (rest : List Nat) :
    ∀ st : NargsScan, st.nargsSet.Nodup → (rest.foldl nargsUpdate st).nargsSet.Nodup := by
  induction rest with
  | nil => intro st h; simpa using h
  | cons a rest ih =>
    intro st h
    rw [List.foldl_cons]
    apply ih
    by_cases hc : a ∈ st.nargsSet
    · rw [nargsUpdate_of_mem st a hc]; exact h
    · rw [nargsUpdate_of_not_mem st a hc]
      exact List.nodup_cons.mpr ⟨hc, h⟩

/-- The number of recorded duplicates is the number of arities minus the
number of distinct arities. -/
theorem nargsDuplicates_length (p : List Nat) :
    (p.foldl nargsUpdate ⟨[], []⟩).nargsDuplicates.length = p.length - p.dedup.length := by
  have hlen := scan_lengths p ⟨[], []⟩
  have hnodup := scan_nodup p ⟨[], []⟩ List.nodup_nil
  have hperm : (p.foldl nargsUpdate ⟨[], []⟩).nargsSet.Perm p.dedup :=
    (List.perm_ext_iff_of_nodup hnodup (List.nodup_dedup p)).mpr
      (fun a => by rw [List.mem_dedup]; exact (scanInv_all p a).1)
  have := hperm.length_eq
  simp only [List.length_nil] at hlen
  omega

/-- The recorded duplicates are the arities that repeat an earlier one, in
order. -/
theorem nargsDuplicates_take (p : List Nat) :
    ∀ n, n ≤ p.length →
      ((p.take n).foldl nargsUpdate ⟨[], []⟩).nargsDuplicates
        = ((List.range n).filter fun i =>
            (p.take i).contains (p.getD i 0)).map fun i => p.getD i 0 := by
  intro n
  induction n with
  | zero => intro _; rfl
  | succ k ih =>
    intro hk
    have hlt : k < p.length := hk
    have htake : p.take (k + 1) = p.take k ++ [p[k]] := by
      rw [List.take_succ, List.getElem?_eq_getElem hlt]; rfl
    have hget : p.getD k 0 = p[k] := by
      simp [List.getD, List.getElem?_eq_getElem hlt]
    have hset : p[k] ∈ ((p.take k).foldl nargsUpdate ⟨[], []⟩).nargsSet ↔ p[k] ∈ p.take k :=
      (scanInv_all (p.take k) p[k]).1
    rw [htake, List.foldl_append, List.range_succ, List.filter_append, List.map_append,
      ← ih (Nat.le_of_lt hlt)]
    simp only [List.foldl_cons, List.foldl_nil]
    have hget2 : p[k]?.getD 0 = p[k] := by
      simp [List.getElem?_eq_getElem hlt]
    by_cases hc : p[k] ∈ p.take k
    · rw [nargsUpdate_of_mem _ _ (hset.mpr hc)]
      simp [hc, hget, hget2, List.filter_cons]
    · rw [nargsUpdate_of_not_mem _ _ (fun h => hc (hset.mp h))]
      simp [hc, hget, hget2, List.filter_cons]

theorem nargsDuplicates_eq_repeatedArities (p : List Nat) :
    (p.foldl nargsUpdate ⟨[], []⟩).nargsDuplicates = repeatedArities p := by
  have := nargsDuplicates_take p p.length (Nat.le_refl _)
  rw [List.take_length] at this
  exact this

/-- C18: the arity list of `pyx_checkDuplicateNargsKwArgs` has one entry for
every signature whose arity equals that of an earlier signature, in the
declaration order of those signatures, without deduplication: an arity shared
by `k >= 2` signatures appears `k-1` times, and the list has `nrOverloads()`
minus the number of distinct arities entries; it is emitted as the decimals
separated by commas, with no comma after the last one, so three signatures of
arity 3 emit `[3,3]`. -/
theorem nargsDuplicates_not_deduplicated (self : ArgumentOverloads Q) (indentLevel : Nat) :
    ∃ dups : List Nat,
      self.nargsDuplicates = .ok dups ∧
      dups = repeatedArities (self.argLists_.map List.length) ∧
      (∀ n k, self.argLists_.countP (fun l => l.length == n) = k → 2 ≤ k →
        dups.count n = k - 1) ∧
      dups.length = self.nrOverloads - (self.argLists_.map List.length).dedup.length ∧
      self.pyx_checkDuplicateNargsKwArgs indentLevel
        = .ok (if dups = [] then ""
            else String.mk (List.replicate indentLevel '\t')
              ++ "if len(kwargs)==0 and len(args)+len(kwargs) in ["
              ++ ",".intercalate (dups.map toString) ++ "]:\n"
              ++ String.mk (List.replicate (indentLevel + 1) '\t')
              ++ "raise TypeError('Overloads with the same number of arguments exist. Please use keyword arguments to differentiate them!')\n") ∧
      (self.argLists_.map List.length = [3, 3, 3] →
        dups = [3, 3] ∧ ",".intercalate (dups.map toString) = "3,3") := by
  have hraise : ("\traise TypeError('Overloads with the same number of arguments exist. Please use keyword arguments to differentiate them!')\n" : String)
      = "\t" ++ "raise TypeError('Overloads with the same number of arguments exist. Please use keyword arguments to differentiate them!')\n" := by
    decide
  refine ⟨_, nargsDuplicates_eq self, nargsDuplicates_eq_repeatedArities _, ?_, ?_, ?_, ?_⟩
  · intro n k hk h2
    have hcnt := (scanInv_all (self.argLists_.map List.length) n).2
    rw [count_length_eq_countP, hk] at hcnt
    have hmem : n ∈ self.argLists_.map List.length := by
      apply List.count_pos_iff.mp
      rw [count_length_eq_countP, hk]; omega
    simp only [hmem, if_true] at hcnt
    omega
  · rw [nargsDuplicates_length, List.length_map]; rfl
  · rw [pyx_checkDuplicateNargsKwArgs_eq, duplicateNargsText_eq, indentOf_eq, tabs_succ,
      hraise]
    simp only [String.append_assoc]
  · intro h
    rw [h]
    exact ⟨rfl, rfl⟩

theorem nargsDuplicates_not_deduplicated_example :
    overloads333.nargsDuplicates = .ok [3, 3] ∧
    overloads333.pyx_checkDuplicateNargsKwArgs 0
      = .ok ("if len(kwargs)==0 and len(args)+len(kwargs) in [3,3]:\n"
          ++ "\traise TypeError('Overloads with the same number of arguments exist. Please use keyword arguments to differentiate them!')\n") := by
  obtain ⟨dups, hd, _, _, _, htext, hex⟩ := nargsDuplicates_not_deduplicated overloads333 0
  obtain ⟨hdups, _⟩ := hex (by decide)
  subst hdups
  exact ⟨hd, htext.trans rfl⟩

end ArgumentOverloads

/-! ## The templated helpers -/

theorem StdMap.insert_of_all_lt {F : Type} (entry : String × F) :
    ∀ m : StdMap F, (∀ e ∈ m, e.1 < entry.1) → StdMap.insert entry m = m ++ [entry] := by
  intro m
  induction m with
  | nil => intro _; rfl
  | cons e rest ih =>
    intro h
    have he : e.1 < entry.1 := h e (List.mem_cons_self e rest)
    have h1 : ¬ entry.1 < e.1 := not_lt.mpr (le_of_lt he)
    have h2 : ¬ entry.1 = e.1 := fun heq => (ne_of_lt he) heq.symm
    show (if entry.1 < e.1 then entry :: e :: rest
      else if entry.1 = e.1 then e :: rest else e :: StdMap.insert entry rest) = _
    rw [if_neg h1, if_neg h2, ih (fun x hx => h x (List.mem_cons_of_mem e hx))]
    rfl

/-- Inserting the entries of a well-formed map in iteration order appends
each of them. -/
theorem foldl_insert_sorted {F : Type} (g : F → F) (rest : StdMap F) :
    ∀ acc : StdMap F,
      StdMap.WellFormed rest → (∀ a ∈ acc, ∀ b ∈ rest, a.1 < b.1) →
      rest.foldl (fun result namedMethod =>
          StdMap.insert (namedMethod.1, g namedMethod.2) result) acc
        = acc ++ rest.map (fun e => (e.1, g e.2)) := by
  induction rest with
  | nil => intro acc _ _; simp
  | cons e rest ih =>
    intro acc hwf hlt
    have hwf2 := List.pairwise_cons.mp hwf
    rw [List.foldl_cons,
      StdMap.insert_of_all_lt (e.1, g e.2) acc
        (fun a ha => hlt a ha e (List.mem_cons_self e rest)),
      ih (acc ++ [(e.1, g e.2)]) hwf2.2]
    · simp
    · intro a ha b hb
      rcases List.mem_append.mp ha with ha | ha
      · exact hlt a ha b (List.mem_cons_of_mem e hb)
      · have : a = (e.1, g e.2) := by simpa using ha
        rw [this]
        exact hwf2.1 b hb

theorem find_map_snd {F : Type} (g : F → F) (key : String) (m : StdMap F) :
    StdMap.find (m.map fun e => (e.1, g e.2)) key = (StdMap.find m key).map g := by
  unfold StdMap.find
  induction m with
  | nil => rfl
  | cons e rest ih =>
    simp only [List.map_cons, List.find?_cons]
    by_cases h : e.1 = key
    · simp [h]
    · have hb : (e.1 == key) = false := by simpa using h
      simp only [hb]
      exact ih

/-- C14: for a well-formed mapping `methods` and a substitution `ts`,
`expandMethodTemplate(methods, ts)` is a mapping with the same keys, in the
same order, in which the value at each key is the value of `methods` at that
key after its own `expandTemplate(ts)`; it is again well formed.  `methods` is
passed by constant reference and is no part of the result. -/
theorem expandMethodTemplate_same_keys {F TS : Type} (expandTemplate : F → TS → F)
    (methods : StdMap F) (ts : TS) (hwf : methods.WellFormed) :
    expandMethodTemplate expandTemplate methods ts
      = methods.map (fun e => (e.1, expandTemplate e.2 ts)) ∧
    (expandMethodTemplate expandTemplate methods ts).map Prod.fst = methods.map Prod.fst ∧
    (∀ key, StdMap.find (expandMethodTemplate expandTemplate methods ts) key
      = (StdMap.find methods key).map (fun value => expandTemplate value ts)) ∧
    (expandMethodTemplate expandTemplate methods ts).WellFormed := by
  have heq : expandMethodTemplate expandTemplate methods ts
      = methods.map (fun e => (e.1, expandTemplate e.2 ts)) := by
    unfold expandMethodTemplate
    have := foldl_insert_sorted (fun value => expandTemplate value ts) methods [] hwf
      (fun a ha => absurd ha (List.not_mem_nil a))
    simpa using this
  refine ⟨heq, ?_, ?_, ?_⟩
  · rw [heq, List.map_map]
    rfl
  · intro key
    rw [heq]
    exact find_map_snd (fun value => expandTemplate value ts) key methods
  · rw [heq]
    unfold StdMap.WellFormed at hwf ⊢
    exact List.pairwise_map.mpr hwf

theorem expandMethodTemplate_same_keys_example :
    expandMethodTemplate
        (fun (overloads : ArgumentOverloads String) ts =>
          overloads.ExpandTemplate ArgumentList.expandTemplate ts)
        methodTable ArgumentOverloads.substTPoint2
      = [("print", { argLists_ := [[{ name := "x", type := "Point2" }]] }),
         ("vector", ArgumentOverloads.overloadsPose)] := by
  have hwf : methodTable.WellFormed := by
    unfold methodTable StdMap.WellFormed
    simp only [List.pairwise_cons, List.mem_singleton, forall_eq, List.not_mem_nil,
      false_implies, implies_true, List.Pairwise.nil, and_true, String.lt_iff_toList_lt]
    decide
  exact (expandMethodTemplate_same_keys _ methodTable ArgumentOverloads.substTPoint2 hwf).1.trans
    (by decide)

theorem batchForM_cons {F : Type} (f : String × F → Except WrapError Unit)
    (e : String × F) (rest : StdMap F) :
    List.forM (e :: rest) f = (f e >>= fun _ => List.forM rest f) := rfl

theorem batch_ok {F : Type} (verifyArgumentsOf : F → List String → Except WrapError Unit)
    (validArgs : List String) (vt : StdMap F)
    (h : ∀ e ∈ vt, verifyArgumentsOf e.2 validArgs = .ok ()) :
    verifyArguments verifyArgumentsOf validArgs vt = .ok () := by
  unfold verifyArguments
  induction vt with
  | nil => rfl
  | cons e rest ih =>
    rw [batchForM_cons, h e (List.mem_cons_self e rest)]
    exact ih (fun x hx => h x (List.mem_cons_of_mem e hx))

theorem batch_first_failure {F : Type}
    (verifyArgumentsOf : F → List String → Except WrapError Unit)
    (validArgs : List String) (pre post : StdMap F) (failing : String × F) (err : WrapError)
    (hpre : ∀ e ∈ pre, verifyArgumentsOf e.2 validArgs = .ok ())
    (hfail : verifyArgumentsOf failing.2 validArgs = .error err) :
    verifyArguments verifyArgumentsOf validArgs (pre ++ failing :: post) = .error err := by
  unfold verifyArguments
  rw [List.forM_append]
  have hok := batch_ok verifyArgumentsOf validArgs pre hpre
  unfold verifyArguments at hok
  rw [hok, batchForM_cons, hfail]
  rfl

theorem batch_cases {F : Type} (verifyArgumentsOf : F → List String → Except WrapError Unit)
    (validArgs : List String) (vt : StdMap F) :
    (∀ e ∈ vt, verifyArgumentsOf e.2 validArgs = .ok ()) ∨
    ∃ (pre post : StdMap F) (failing : String × F) (err : WrapError),
      vt = pre ++ failing :: post ∧
      (∀ e ∈ pre, verifyArgumentsOf e.2 validArgs = .ok ()) ∧
      verifyArgumentsOf failing.2 validArgs = .error err := by
  induction vt with
  | nil => left; intro e he; exact absurd he (List.not_mem_nil e)
  | cons e rest ih =>
    cases hres : verifyArgumentsOf e.2 validArgs with
    | error err =>
      right
      exact ⟨[], rest, e, err, rfl, fun x hx => absurd hx (List.not_mem_nil x), hres⟩
    | ok u =>
      cases u
      rcases ih with hall | ⟨pre, post, failing, err, hvt, hpre, hfail⟩
      · left
        intro x hx
        rcases List.mem_cons.mp hx with hx | hx
        · rw [hx]; exact hres
        · exact hall x hx
      · right
        refine ⟨e :: pre, post, failing, err, by simp [hvt], ?_, hfail⟩
        intro x hx
        rcases List.mem_cons.mp hx with hx | hx
        · rw [hx]; exact hres
        · exact hpre x hx

/-- C15: the batch `verifyArguments` succeeds exactly when the
`verifyArguments` of every entry succeeds; otherwise it fails with the error
raised by the first failing entry in iteration order (ascending key order),
and the entries after that one are not examined: the outcome is the same
whatever their `verifyArguments` would do. -/
theorem batch_verifyArguments_first_failure {F : Type}
    (verifyArgumentsOf : F → List String → Except WrapError Unit)
    (validArgs : List String) (vt : StdMap F) :
    (verifyArguments verifyArgumentsOf validArgs vt = .ok () ↔
      ∀ e ∈ vt, verifyArgumentsOf e.2 validArgs = .ok ()) ∧
    (∀ (pre post : StdMap F) (failing : String × F) (err : WrapError),
      vt = pre ++ failing :: post →
      (∀ e ∈ pre, verifyArgumentsOf e.2 validArgs = .ok ()) →
      verifyArgumentsOf failing.2 validArgs = .error err →
      verifyArguments verifyArgumentsOf validArgs vt = .error err ∧
      ∀ other : F → List String → Except WrapError Unit,
        (∀ e ∈ pre ++ [failing], other e.2 validArgs = verifyArgumentsOf e.2 validArgs) →
        verifyArguments other validArgs vt = .error err) ∧
    (∀ err, verifyArguments verifyArgumentsOf validArgs vt = .error err →
      ∃ (pre post : StdMap F) (failing : String × F),
        vt = pre ++ failing :: post ∧
        (∀ e ∈ pre, verifyArgumentsOf e.2 validArgs = .ok ()) ∧
        verifyArgumentsOf failing.2 validArgs = .error err) := by
  refine ⟨?_, ?_, ?_⟩
  · constructor
    · intro hok
      rcases batch_cases verifyArgumentsOf validArgs vt with
        hall | ⟨pre, post, failing, err, hvt, hpre, hfail⟩
      · exact hall
      · rw [hvt, batch_first_failure verifyArgumentsOf validArgs pre post failing err hpre
          hfail] at hok
        cases hok
    · exact batch_ok verifyArgumentsOf validArgs vt
  · intro pre post failing err hvt hpre hfail
    refine ⟨?_, ?_⟩
    · rw [hvt]
      exact batch_first_failure verifyArgumentsOf validArgs pre post failing err hpre hfail
    · intro other hagree
      rw [hvt]
      apply batch_first_failure other validArgs pre post failing err
      · intro e he
        rw [hagree e (List.mem_append_left _ he)]
        exact hpre e he
      · rw [hagree failing (List.mem_append_right _ (List.mem_singleton_self failing))]
        exact hfail
  · intro err herr
    rcases batch_cases verifyArgumentsOf validArgs vt with
      hall | ⟨pre, post, failing, err2, hvt, hpre, hfail⟩
    · rw [batch_ok verifyArgumentsOf validArgs vt hall] at herr
      cases herr
    · refine ⟨pre, post, failing, hvt, hpre, ?_⟩
      have := batch_first_failure verifyArgumentsOf validArgs pre post failing err2 hpre hfail
      rw [← hvt, herr] at this
      rw [hfail]
      exact this.symm

theorem batch_verifyArguments_first_failure_example :
    verifyArguments verifyOverloads ["T", "double"]
        (methodTable ++ [("zero", ArgumentOverloads.overloadsPose)])
      = .error (.DependencyMissing "int" "checking argument of m") :=
  ((batch_verifyArguments_first_failure verifyOverloads ["T", "double"]
      (methodTable ++ [("zero", ArgumentOverloads.overloadsPose)])).2.1
    [("print", ArgumentOverloads.overloadsT)] [("zero", ArgumentOverloads.overloadsPose)]
    ("vector", ArgumentOverloads.overloadsPose)
    (.DependencyMissing "int" "checking argument of m")
    rfl (fun e he => by rw [List.mem_singleton.mp he]; rfl) rfl).1

end wrap
